import Mathlib

/-!
Shallow embedding of the SQL-compatibility engine of
`src/app/api/execute-sql/route.ts`: the PostgreSQL-syntax normalizer
(`convertPostgreSQLFunctions`), the capability check and dispatcher
(`executeConvertedQuery`), and the two in-memory aggregation paths
(`processGroupByDatePart`, `processDateTruncQuery`).

Strings are modelled as `List Char` (`String.data`).  The JavaScript regular
expressions of the source are modelled by deterministic scanners; for every
pattern used here each greedy run (`\w+`, `\s+`, `[^)]+`, ...) is over a
character class disjoint from what the pattern requires next, so regex
backtracking can never succeed where the greedy scan fails — except for the
`DATE_TRUNC` capture `([^:]+)(?:::[\w\[\]]+)?\s*\)`, where the scanner
explicitly tries capture lengths longest-first exactly as the engine does.

The JavaScript runtime is modelled with a UTC local timezone (the reference
deployment is a server): `getHours`/`getDay`/`setDate`/... coincide with
their UTC versions.  `new Date(string)` parsing is modelled for ISO-8601
`YYYY-MM-DD` and `YYYY-MM-DDTHH:MM[:SS][Z]` strings; all other strings map
to an Invalid Date (beyond the ISO format, JavaScript string parsing is
implementation-defined).  Characters are handled over the ASCII range, where
`toLowerCase`/`toUpperCase`/`\s` agree with the model below.
-/

set_option maxRecDepth 100000

namespace Jumper

/-- An apostrophe character, used by the SQL-literal scanners. -/
def sqChar : Char := '\''

/-- Case-sensitive: the first list is a prefix of the second. -/
def startsWithL : List Char → List Char → Bool
  | [], _ => true
  | _ :: _, [] => false
  | p :: ps, c :: cs => p == c && startsWithL ps cs

/-- `s.includes(pat)`: case-sensitive substring test, as
`String.prototype.includes`. -/
def containsL : List Char → List Char → Bool
  | [], pat => startsWithL pat []
  | c :: t, pat => startsWithL pat (c :: t) || containsL t pat

/-- ASCII lower-casing of a string's characters, as `toLowerCase` acts on the
ASCII range. -/
def lcData (s : String) : List Char := s.data.map Char.toLower

/-- String wrapper for `lcData`. -/
def lcStr (s : String) : String := String.mk (lcData s)

/-- `String.prototype.includes` on `String`s. -/
def sContains (s pat : String) : Bool := containsL s.data pat.data

/-- The regex class `\w`: `[A-Za-z0-9_]`. -/
def isWordChar (c : Char) : Bool :=
  ('a' ≤ c && c ≤ 'z') || ('A' ≤ c && c ≤ 'Z') || ('0' ≤ c && c ≤ '9') || c == '_'

/-- The regex class `\s`, restricted to the ASCII whitespace that occurs in
query text. -/
def isSpaceChar (c : Char) : Bool :=
  c == ' ' || c == '\t' || c == '\n' || c == '\r'

/-- The class `[\w\[\]]` of the cast-stripping pattern. -/
def isCastBodyChar (c : Char) : Bool := isWordChar c || c == '[' || c == ']'

/-- ASCII decimal digit test (`\d`). -/
def isDigit (c : Char) : Bool := '0' ≤ c && c ≤ '9'

/-- Numeric value of an ASCII digit. -/
def digitVal (c : Char) : Nat := c.toNat - 48

/-- Drop a case-insensitive literal from the head of the input, or fail. -/
def dropLitCI : List Char → List Char → Option (List Char)
  | [], s => some s
  | _ :: _, [] => none
  | p :: ps, c :: cs => if p.toLower == c.toLower then dropLitCI ps cs else none

/-- Consume one expected character. -/
def expectChar (c : Char) : List Char → Option (List Char)
  | x :: t => if x == c then some t else none
  | [] => none

/-! ### The syntax normalizer `convertPostgreSQLFunctions` -/

/-- One attempt of `EXTRACT\s*\(\s*(\w+)\s+FROM\s+([^)]+)\)` (flags `gi`)
anchored at the head of `s`: returns (field, expr, rest after the match). -/
def tryExtractAt (s : List Char) : Option (List Char × List Char × List Char) := do
  let s ← dropLitCI "extract".data s
  let s := s.dropWhile isSpaceChar
  let s ← expectChar '(' s
  let s := s.dropWhile isSpaceChar
  let field := s.takeWhile isWordChar
  if field.isEmpty then none else do
  let s := s.drop field.length
  let ws := s.takeWhile isSpaceChar
  if ws.isEmpty then none else do
  let s := s.drop ws.length
  let s ← dropLitCI "from".data s
  let ws2 := s.takeWhile isSpaceChar
  if ws2.isEmpty then none else do
  let s := s.drop ws2.length
  let expr := s.takeWhile (fun c => !(c == ')'))
  if expr.isEmpty then none else do
  let s := s.drop expr.length
  let s ← expectChar ')' s
  some (field, expr, s)

/-- The replacement text `DATE_PART('$1', $2)`. -/
def datePartSubst (field expr : List Char) : List Char :=
  "DATE_PART('".data ++ field ++ "', ".data ++ expr ++ [')']

/-- Global left-to-right replacement for the `EXTRACT` rewrite rule: on a
match, emit the substitution and continue after the match (as `/g` does); on
failure advance one character.  The fuel starts at the input length; every
match consumes at least one input character, so it never runs out. -/
def replaceExtractAux : Nat → List Char → List Char
  | 0, s => s
  | _ + 1, [] => []
  | n + 1, c :: t =>
    match tryExtractAt (c :: t) with
    | some (field, expr, rest) => datePartSubst field expr ++ replaceExtractAux n rest
    | none => c :: replaceExtractAux n t

/-- Rewrite rule 1 of the normalizer. -/
def replaceExtract (s : List Char) : List Char := replaceExtractAux s.length s

/-- One attempt of `(\w+)::[\w\[\]]+` (flags `gi`) anchored at the head of
`s`: returns (kept identifier, rest after the match). -/
def tryCastAt (s : List Char) : Option (List Char × List Char) :=
  let word := s.takeWhile isWordChar
  if word.isEmpty then none else
  match s.drop word.length with
  | ':' :: ':' :: u =>
    let body := u.takeWhile isCastBodyChar
    if body.isEmpty then none else some (word, u.drop body.length)
  | _ => none

/-- Global replacement for the cast-stripping rule (replacement is `$1`). -/
def replaceCastAux : Nat → List Char → List Char
  | 0, s => s
  | _ + 1, [] => []
  | n + 1, c :: t =>
    match tryCastAt (c :: t) with
    | some (word, rest) => word ++ replaceCastAux n rest
    | none => c :: replaceCastAux n t

/-- Rewrite rule 2 of the normalizer. -/
def replaceCast (s : List Char) : List Char := replaceCastAux s.length s

/-- `convertPostgreSQLFunctions` (route.ts lines 82–105): the EXTRACT →
DATE_PART rewrite, then cast stripping. -/
def convertPostgreSQLFunctions (query : String) : String :=
  String.mk (replaceCast (replaceExtract query.data))

/-! ### Rows and values -/

/-- A JSON-ish scalar as it occurs in fetched rows and result rows.  `vNaN`
is the JavaScript `NaN` (it arises from date getters on an Invalid Date). -/
inductive Value where
  | vNull : Value
  | vBool : Bool → Value
  | vNum : Int → Value
  | vNaN : Value
  | vStr : String → Value
deriving DecidableEq, Repr

/-- A row: field name to value, in field insertion order. -/
abbrev Row := List (String × Value)

/-- `row[column]` (`none` models JavaScript `undefined`). -/
def rowGet (row : Row) (col : String) : Option Value :=
  match row.find? (fun p => p.1 == col) with
  | some p => some p.2
  | none => none

/-- JavaScript truthiness of `row[column]` (`undefined`, `null`, `0`, `""`,
`false` and `NaN` are falsy). -/
def jsTruthy : Option Value → Bool
  | none => false
  | some .vNull => false
  | some (.vBool b) => b
  | some (.vNum n) => !(n == 0)
  | some .vNaN => false
  | some (.vStr s) => !(s == "")

/-! ### The JavaScript `Date` model (local timezone = UTC) -/

/-- Milliseconds per day. -/
def msPerDay : Int := 86400000

/-- A `Date` value: `some` epoch milliseconds when valid, `none` for an
Invalid Date. -/
abbrev JSDate := Option Int

/-- Construct a date from epoch milliseconds, Invalid outside the ECMA-262
range of ±8.64e15 ms. -/
def mkJSDate (ms : Int) : JSDate :=
  if ms.natAbs ≤ 8640000000000000 then some ms else none

/-- Days since 1970-01-01 of the proleptic-Gregorian civil date `(y, m, d)`
with month `1..12` (Howard Hinnant's `days_from_civil`). -/
def daysFromCivil (y m d : Int) : Int :=
  let y' := if m ≤ 2 then y - 1 else y
  let era := y'.fdiv 400
  let yoe := y' - era * 400
  let mp := (m + 9).emod 12
  let doy := (153 * mp + 2).fdiv 5 + d - 1
  let doe := yoe * 365 + yoe.fdiv 4 - yoe.fdiv 100 + doy
  era * 146097 + doe - 719468

/-- Inverse of `daysFromCivil` (Hinnant's `civil_from_days`): the civil date
`(y, m, d)` of a day count since the epoch. -/
def civilFromDays (z : Int) : Int × Int × Int :=
  let z' := z + 719468
  let era := z'.fdiv 146097
  let doe := z' - era * 146097
  let yoe := (doe - doe.fdiv 1460 + doe.fdiv 36524 - doe.fdiv 146096).fdiv 365
  let y := yoe + era * 400
  let doy := doe - (365 * yoe + yoe.fdiv 4 - yoe.fdiv 100)
  let mp := (5 * doy + 2).fdiv 153
  let d := doy - (153 * mp + 2).fdiv 5 + 1
  let m := mp + (if mp < 10 then 3 else -9)
  (if m ≤ 2 then y + 1 else y, m, d)

/-- Whole days since the epoch of a timestamp (floor division). -/
def epochDays (ms : Int) : Int := ms.fdiv msPerDay

/-- Milliseconds into the day of a timestamp. -/
def msOfDay (ms : Int) : Int := ms.emod msPerDay

/-- `getFullYear()` (local = UTC). -/
def dGetFullYear (ms : Int) : Int := (civilFromDays (epochDays ms)).1

/-- `getMonth()`: 0-based month. -/
def dGetMonth0 (ms : Int) : Int := (civilFromDays (epochDays ms)).2.1 - 1

/-- `getDate()`: day of month. -/
def dGetDate (ms : Int) : Int := (civilFromDays (epochDays ms)).2.2

/-- `getDay()`: day of week, 0 = Sunday (1970-01-01 was a Thursday). -/
def dGetDay (ms : Int) : Int := (epochDays ms + 4).emod 7

/-- `getHours()`. -/
def dGetHours (ms : Int) : Int := (msOfDay ms).fdiv 3600000

/-- `getMinutes()`. -/
def dGetMinutes (ms : Int) : Int := ((msOfDay ms).fdiv 60000).emod 60

/-- `new Date(y, m, d, h)` with 0-based month, normalizing out-of-range
fields as JavaScript does; a year `0..99` means `1900 + y`. -/
def jsDateYMDH (y m0 d h : Int) : JSDate :=
  let y := if 0 ≤ y ∧ y ≤ 99 then y + 1900 else y
  let ym := y * 12 + m0
  mkJSDate ((daysFromCivil (ym.fdiv 12) (ym.emod 12 + 1) 1 + (d - 1)) * msPerDay
    + h * 3600000)

/-- `setDate(n)`: move to day-of-month `n` (with rollover), keeping the
time of day. -/
def jsSetDate (ms n : Int) : JSDate :=
  let c := civilFromDays (epochDays ms)
  mkJSDate ((daysFromCivil c.1 c.2.1 1 + (n - 1)) * msPerDay + msOfDay ms)

/-- `setHours(0, 0, 0, 0)`: local (= UTC) midnight of the same day. -/
def jsSetHours0 (ms : Int) : JSDate := mkJSDate (epochDays ms * msPerDay)

/-- Left-pad a natural number with zeros to `w` digits. -/
def padNat (w : Nat) (n : Nat) : String :=
  let s := toString n
  String.mk (List.replicate (w - s.length) '0') ++ s

/-- The year field of `toISOString`: 4 digits, or an expanded `±YYYYYY`
outside `0..9999`. -/
def yearStr (y : Int) : String :=
  if 0 ≤ y ∧ y ≤ 9999 then padNat 4 y.toNat
  else if y < 0 then "-" ++ padNat 6 (-y).toNat
  else "+" ++ padNat 6 y.toNat

/-- Two-digit field of an ISO timestamp (arguments are in range in use). -/
def pad2 (n : Int) : String := padNat 2 n.toNat

/-- `toISOString().split('T')[0]`: the date part. -/
def isoDateOfMs (ms : Int) : String :=
  let c := civilFromDays (epochDays ms)
  yearStr c.1 ++ "-" ++ pad2 c.2.1 ++ "-" ++ pad2 c.2.2

/-- `toISOString()`: full UTC timestamp. -/
def isoOfMs (ms : Int) : String :=
  let t := msOfDay ms
  isoDateOfMs ms ++ "T" ++ pad2 (t.fdiv 3600000) ++ ":" ++ pad2 ((t.fdiv 60000).emod 60)
    ++ ":" ++ pad2 ((t.fdiv 1000).emod 60) ++ "." ++ padNat 3 (t.emod 1000).toNat ++ "Z"

/-- Days in a month of the proleptic Gregorian calendar. -/
def daysInMonth (y m : Int) : Int :=
  if m = 2 then (if (y.emod 4 = 0 ∧ y.emod 100 ≠ 0) ∨ y.emod 400 = 0 then 29 else 28)
  else if m = 4 ∨ m = 6 ∨ m = 9 ∨ m = 11 then 30 else 31

/-- The year prefix of an ECMA-262 Date Time String: four digits, or an
expanded `±YYYYYY` (six digits with a mandatory sign; `-000000` is not a
valid year). -/
def parseYear : List Char → Option (Int × List Char)
  | '+' :: a :: b :: c :: d :: e :: f :: rest =>
    if [a, b, c, d, e, f].all isDigit then
      some (((100000 * digitVal a + 10000 * digitVal b + 1000 * digitVal c +
        100 * digitVal d + 10 * digitVal e + digitVal f : Nat) : Int), rest)
    else none
  | '-' :: a :: b :: c :: d :: e :: f :: rest =>
    if [a, b, c, d, e, f].all isDigit then
      let n : Nat := 100000 * digitVal a + 10000 * digitVal b + 1000 * digitVal c +
        100 * digitVal d + 10 * digitVal e + digitVal f
      if n == 0 then none else some (-(n : Int), rest)
    else none
  | a :: b :: c :: d :: rest =>
    if [a, b, c, d].all isDigit then
      some (((1000 * digitVal a + 100 * digitVal b + 10 * digitVal c + digitVal d : Nat) : Int),
        rest)
    else none
  | _ => none

/-- A timezone-offset suffix: nothing (local time, = UTC in this model),
`Z`, or `±HH:mm`; returns its signed millisecond value. -/
def parseOffset : List Char → Option Int
  | [] => some 0
  | ['Z'] => some 0
  | sgn :: h1 :: h2 :: ':' :: m1 :: m2 :: [] =>
    if (sgn == '+' || sgn == '-') && [h1, h2, m1, m2].all isDigit then
      let oh : Nat := 10 * digitVal h1 + digitVal h2
      let om : Nat := 10 * digitVal m1 + digitVal m2
      if oh < 24 && om < 60 then
        let o : Int := (oh : Int) * 3600000 + (om : Int) * 60000
        some (if sgn == '-' then -o else o)
      else none
    else none
  | _ => none

/-- Milliseconds of a fraction-of-second digit run: the first three digits,
right-padded with zeros (further digits are truncated away, as V8 does). -/
def fracMs : List Char → Nat
  | [] => 0
  | [a] => 100 * digitVal a
  | [a, b] => 100 * digitVal a + 10 * digitVal b
  | a :: b :: c :: _ => 100 * digitVal a + 10 * digitVal b + digitVal c

/-- Parse the time part `HH:mm[:ss[.s⁺]][Z|±HH:mm]` of an ECMA-262 Date
Time String into ms-of-day with the offset already subtracted (`24:00` is
admitted when every smaller field is zero). -/
def parseTimeMs (l : List Char) : Option Int :=
  match l with
  | h1 :: h2 :: ':' :: m1 :: m2 :: rest =>
    if [h1, h2, m1, m2].all isDigit then
      let h : Nat := 10 * digitVal h1 + digitVal h2
      let mi : Nat := 10 * digitVal m1 + digitVal m2
      let finish : Nat → Nat → List Char → Option Int := fun sec fms offRest =>
        if (h < 24 && mi < 60 && sec < 60) ||
            (h == 24 && mi == 0 && sec == 0 && fms == 0) then
          (parseOffset offRest).map (fun off =>
            (h : Int) * 3600000 + (mi : Int) * 60000 + (sec : Int) * 1000 + (fms : Int) - off)
        else none
      match rest with
      | ':' :: s1 :: s2 :: rest2 =>
        if [s1, s2].all isDigit then
          match rest2 with
          | '.' :: ds =>
            let digits := ds.takeWhile isDigit
            if digits.isEmpty then none
            else finish (10 * digitVal s1 + digitVal s2) (fracMs digits)
              (ds.drop digits.length)
          | _ => finish (10 * digitVal s1 + digitVal s2) 0 rest2
        else none
      | _ => finish 0 0 rest
    else none
  | _ => none

/-- Parse an ECMA-262 Date Time String
(`YYYY[-MM[-DD]][THH:mm[:ss[.s⁺]][Z|±HH:mm]]`, with expanded `±YYYYYY`
years) into epoch ms; date-only forms are UTC.  Strings outside this
mandated grammar are implementation-defined in JavaScript and are modelled
as an Invalid Date. -/
def jsParseCore (l : List Char) : Option Int := do
  let (y, r1) ← parseYear l
  let (mo, dy, r2) ←
    (match r1 with
     | '-' :: e :: f :: r =>
       if [e, f].all isDigit then
         let mo : Int := ((10 * digitVal e + digitVal f : Nat) : Int)
         match r with
         | '-' :: g :: h :: r' =>
           if [g, h].all isDigit then
             some (mo, ((10 * digitVal g + digitVal h : Nat) : Int), r')
           else none
         | _ => some (mo, 1, r)
       else none
     | _ => some (1, 1, r1) : Option (Int × Int × List Char))
  if 1 ≤ mo ∧ mo ≤ 12 ∧ 1 ≤ dy ∧ dy ≤ daysInMonth y mo then
    match r2 with
    | [] => some (daysFromCivil y mo dy * msPerDay)
    | 'T' :: t => (parseTimeMs t).map (fun tms => daysFromCivil y mo dy * msPerDay + tms)
    | _ => none
  else none

/-- `new Date(string)` for the mandated formats above; everything else is
an Invalid Date in this model. -/
def jsParseDate (s : String) : JSDate := (jsParseCore s.data).bind mkJSDate

/-- `new Date(value)` on a row value (`null` coerces to 0, booleans to 0/1). -/
def jsNewDate : Value → JSDate
  | .vStr s => jsParseDate s
  | .vNum n => mkJSDate n
  | .vBool b => mkJSDate (if b then 1 else 0)
  | .vNull => mkJSDate 0
  | .vNaN => none

/-! ### Path B: `processGroupByDatePart` -/

/-- A date-part key slot: a number, `null` (column missing/falsy) or `NaN`
(getter on an Invalid Date). -/
inductive KeyVal where
  | kNull : KeyVal
  | kNaN : KeyVal
  | kNum : Int → KeyVal
deriving DecidableEq, Repr

/-- Apply a date getter, producing `NaN` on an Invalid Date. -/
def keyOfGetter (d : JSDate) (g : Int → Int) : KeyVal :=
  match d with
  | none => .kNaN
  | some ms => .kNum (g ms)

/-- The `switch (part.toLowerCase())` of `processGroupByDatePart` (route.ts
lines 183–204): an unrecognized part yields 0 without touching the date. -/
def datePartValue (part : String) (d : JSDate) : KeyVal :=
  let p := lcStr part
  if p = "hour" then keyOfGetter d dGetHours
  else if p = "dow" then keyOfGetter d dGetDay
  else if p = "day" then keyOfGetter d dGetDate
  else if p = "month" then keyOfGetter d (fun ms => dGetMonth0 ms + 1)
  else if p = "year" then keyOfGetter d dGetFullYear
  else if p = "minute" then keyOfGetter d dGetMinutes
  else .kNum 0

/-- One attempt of `DATE_PART\s*\(\s*'(\w+)'\s*,\s*(\w+)\s*\)` (flags `gi`)
anchored at the head of `s`: returns (part, column, rest). -/
def tryDatePartAt (s : List Char) : Option (String × String × List Char) := do
  let s ← dropLitCI "date_part".data s
  let s := s.dropWhile isSpaceChar
  let s ← expectChar '(' s
  let s := s.dropWhile isSpaceChar
  let s ← expectChar sqChar s
  let part := s.takeWhile isWordChar
  if part.isEmpty then none else do
  let s := s.drop part.length
  let s ← expectChar sqChar s
  let s := s.dropWhile isSpaceChar
  let s ← expectChar ',' s
  let s := s.dropWhile isSpaceChar
  let col := s.takeWhile isWordChar
  if col.isEmpty then none else do
  let s := s.drop col.length
  let s := s.dropWhile isSpaceChar
  let s ← expectChar ')' s
  some (String.mk part, String.mk col, s)

/-- All `DATE_PART` matches of the query, in text order (`match` with `/g`:
scanning continues after each match, else advances one character). -/
def datePartMatchesAux : Nat → List Char → List (String × String)
  | 0, _ => []
  | _ + 1, [] => []
  | n + 1, c :: t =>
    match tryDatePartAt (c :: t) with
    | some (part, col, rest) => (part, col) :: datePartMatchesAux n rest
    | none => datePartMatchesAux n t

/-- `originalQuery.match(/DATE_PART\s*\(\s*'(\w+)'\s*,\s*(\w+)\s*\)/gi)`. -/
def datePartMatches (q : String) : List (String × String) :=
  datePartMatchesAux q.data.length q.data

/-- The key slot of one row for one `DATE_PART(part, col)` call (route.ts
lines 176–210): a falsy `row[col]` pushes `null`. -/
def rowKey (row : Row) (pc : String × String) : KeyVal :=
  let v := rowGet row pc.2
  if jsTruthy v then
    match v with
    | some val => datePartValue pc.1 (jsNewDate val)
    | none => .kNull
  else .kNull

/-- The whole key tuple of a row. -/
def computeKeys (q : String) (row : Row) : List KeyVal :=
  (datePartMatches q).map (rowKey row)

/-- How a key slot prints inside `keys.join('|')` (`null` → empty,
`NaN` → `"NaN"`). -/
def keyValStr : KeyVal → String
  | .kNull => ""
  | .kNaN => "NaN"
  | .kNum n => toString n

/-- `keys.join('|')`. -/
def joinKeys : List KeyVal → String
  | [] => ""
  | [k] => keyValStr k
  | k :: t => keyValStr k ++ "|" ++ joinKeys t

/-- JavaScript truthiness of a key slot (0, `null` and `NaN` are falsy). -/
def keyTruthy : KeyVal → Bool
  | .kNull => false
  | .kNaN => false
  | .kNum n => !(n == 0)

/-- A result row of Path B, with the fields the source can set (a field is
`none` when the source never created it on the object). -/
structure DPRow where
  signup_hour : Option KeyVal
  signup_day_of_week : Option KeyVal
  user_count : Nat
deriving DecidableEq, Repr

/-- `keys[1] || keys[0]`: the second slot if truthy, else the first
(JavaScript `||` returns its right operand whenever the left is falsy;
`keys` is nonempty wherever this is evaluated). -/
def secondOrFirst (keys : List KeyVal) : KeyVal :=
  match keys.get? 1 with
  | some k => if keyTruthy k then k else keys.headD .kNull
  | none => keys.headD .kNull

/-- A fresh Path B bucket row (route.ts lines 214–227): alias fields are
created by literal substring match on the query text, `user_count` starts
at 0 and is incremented by the caller. -/
def dpNewRow (q : String) (keys : List KeyVal) : DPRow :=
  { signup_hour := if sContains q "signup_hour" then some (keys.headD .kNull) else none
    signup_day_of_week :=
      if sContains q "signup_day_of_week" then some (secondOrFirst keys) else none
    user_count := 0 }

/-- Key-membership in an insertion-ordered association list (a JavaScript
`Map`). -/
def alContains (k : String) : List (String × α) → Bool
  | [] => false
  | (k', _) :: t => k' == k || alContains k t

/-- `Map.set` of a fresh key: appended, preserving insertion order. -/
def alInsert (k : String) (v : α) (m : List (String × α)) : List (String × α) :=
  m ++ [(k, v)]

/-- Update the value at a key (first occurrence; keys are unique). -/
def alUpdate (k : String) (f : α → α) : List (String × α) → List (String × α)
  | [] => []
  | (k', v) :: t => if k' == k then (k', f v) :: t else (k', v) :: alUpdate k f t

/-- Processing one row of Path B: create the bucket if needed, then
increment its `user_count`. -/
def dpStep (q : String) (m : List (String × DPRow)) (row : Row) : List (String × DPRow) :=
  let keys := computeKeys q row
  let kstr := joinKeys keys
  let m' := if alContains kstr m then m else alInsert kstr (dpNewRow q keys) m
  alUpdate kstr (fun r => { r with user_count := r.user_count + 1 }) m'

/-- The bucket map after all rows. -/
def dpBuckets (q : String) (rows : List Row) : List (String × DPRow) :=
  rows.foldl (dpStep q) []

/-- Stable insertion for `jsSortBy`: `x` goes before the first element `y`
with `le x y`. -/
def jsInsertBy (le : α → α → Bool) (x : α) : List α → List α
  | [] => [x]
  | y :: t => if le x y then x :: y :: t else y :: jsInsertBy le x t

/-- `Array.prototype.sort(comparator)`: the stable ascending sort by
`le a b := comparator(a, b) ≤ 0`.  For a consistent comparator (all uses
here) stability determines the result uniquely, so this insertion sort
computes the same list as the engine's stable sort. -/
def jsSortBy (le : α → α → Bool) (l : List α) : List α := l.foldr (jsInsertBy le) []

/-- `(b.user_count || 0) - (a.user_count || 0) ≤ 0`: ascending by this
comparator is descending by `user_count`. -/
def dpLe (a b : DPRow) : Bool := decide ((b.user_count : Int) - (a.user_count : Int) ≤ 0)

/-- `processGroupByDatePart` (route.ts lines 159–240): returns `[]` when no
`DATE_PART` call parses or the data is empty; otherwise buckets, sorts
descending by count, and truncates to 100 rows (the query's own LIMIT is
ignored on this path). -/
def processGroupByDatePart (rows : List Row) (q : String) : List DPRow :=
  if (datePartMatches q).isEmpty || rows.isEmpty then []
  else (jsSortBy dpLe ((dpBuckets q rows).map Prod.snd)).take 100

/-- A Path B row as the JSON object the route returns (field creation
order: `signup_hour`, `signup_day_of_week`, `user_count`). -/
def keyToValue : KeyVal → Value
  | .kNull => .vNull
  | .kNaN => .vNaN
  | .kNum n => .vNum n

/-- Serialize a `DPRow` into a result `Row`. -/
def dpFinalizeRow (r : DPRow) : Row :=
  (match r.signup_hour with | some k => [("signup_hour", keyToValue k)] | none => []) ++
  (match r.signup_day_of_week with
   | some k => [("signup_day_of_week", keyToValue k)] | none => []) ++
  [("user_count", Value.vNum r.user_count)]

/-! ### Path A: `processDateTruncQuery` -/

/-- The tail `(?:::[\w\[\]]+)?\s*\)` after a candidate `DATE_TRUNC` capture:
returns the rest after `)` on success.  (If the optional cast consumes but
`)` then fails, no backtracking into the cast can help: shorter cast bodies
leave a body character where `)` must stand, and skipping the group leaves
a `:`.) -/
def dtTailOk (tail : List Char) : Option (List Char) :=
  let tail' :=
    match tail with
    | ':' :: ':' :: u =>
      let body := u.takeWhile isCastBodyChar
      if body.isEmpty then tail else u.drop body.length
    | _ => tail
  match tail'.dropWhile isSpaceChar with
  | ')' :: rest => some rest
  | _ => none

/-- Greedy-with-backtracking capture for `([^:]+)`: try prefixes of the
colon-free run longest-first, as the regex engine does. -/
def dtCaptureFrom (s : List Char) : Nat → Option (List Char × List Char)
  | 0 => none
  | len + 1 =>
    match dtTailOk (s.drop (len + 1)) with
    | some rest => some (s.take (len + 1), rest)
    | none => dtCaptureFrom s len

/-- One attempt of
`DATE_TRUNC\s*\(\s*'(\w+)'\s*,\s*([^:]+)(?:::[\w\[\]]+)?\s*\)` (flag `i`)
anchored at the head of `s`: returns (precision, raw capture, rest). -/
def tryDateTruncAt (s : List Char) : Option (String × String × List Char) := do
  let s ← dropLitCI "date_trunc".data s
  let s := s.dropWhile isSpaceChar
  let s ← expectChar '(' s
  let s := s.dropWhile isSpaceChar
  let s ← expectChar sqChar s
  let prec := s.takeWhile isWordChar
  if prec.isEmpty then none else do
  let s := s.drop prec.length
  let s ← expectChar sqChar s
  let s := s.dropWhile isSpaceChar
  let s ← expectChar ',' s
  let s := s.dropWhile isSpaceChar
  let run := s.takeWhile (fun c => !(c == ':'))
  match dtCaptureFrom s run.length with
  | some (cap, rest) => some (String.mk prec, String.mk cap, rest)
  | none => none

/-- First `DATE_TRUNC` match of the query (non-global `match`). -/
def dateTruncFirstAux : Nat → List Char → Option (String × String)
  | 0, _ => none
  | _ + 1, [] => none
  | n + 1, c :: t =>
    match tryDateTruncAt (c :: t) with
    | some (prec, cap, _) => some (prec, cap)
    | none => dateTruncFirstAux n t

/-- The parsed `(precision, columnExpression)` of the query, if any. -/
def dateTruncFirst (q : String) : Option (String × String) :=
  dateTruncFirstAux q.data.length q.data

/-- `String.prototype.trim` (ASCII whitespace). -/
def jsTrim (s : List Char) : List Char :=
  ((s.dropWhile isSpaceChar).reverse.dropWhile isSpaceChar).reverse

/-- `replace(/::[\w\[\]]+$/, '')`: strip one trailing cast. -/
def stripTrailingCast (s : List Char) : List Char :=
  let r := s.reverse
  let body := r.takeWhile isCastBodyChar
  if body.isEmpty then s else
  match r.drop body.length with
  | ':' :: ':' :: rest => rest.reverse
  | _ => s

/-- The grouped column: `columnExpression.trim().replace(/::[\w\[\]]+$/, '')`
(route.ts line 260). -/
def dtColumnOf (capture : String) : String :=
  String.mk (stripTrailingCast (jsTrim capture.data))

/-- The message of the `RangeError` that `toISOString()` throws on an
Invalid Date. -/
def invalidTimeMsg : String := "RangeError: Invalid time value"

/-- The `switch (precision.toLowerCase())` of `processDateTruncQuery`
(route.ts lines 269–295), ending in `toISOString()`: an Invalid Date (from
an unparseable value, or an out-of-range result) throws, modelled as
`.error`. -/
def bucketLabel (prec : String) (d : JSDate) : Except String String :=
  match d with
  | none => .error invalidTimeMsg
  | some ms =>
    let p := lcStr prec
    let res : JSDate × Bool :=  -- (truncated date, label is the full ISO string)
      if p = "week" then
        (match jsSetDate ms (dGetDate ms - (dGetDay ms + 6).emod 7) with
         | none => none
         | some ms' => jsSetHours0 ms', false)
      else if p = "day" then (jsDateYMDH (dGetFullYear ms) (dGetMonth0 ms) (dGetDate ms) 0, false)
      else if p = "month" then (jsDateYMDH (dGetFullYear ms) (dGetMonth0 ms) 1 0, false)
      else if p = "year" then (jsDateYMDH (dGetFullYear ms) 0 1 0, false)
      else if p = "hour" then
        (jsDateYMDH (dGetFullYear ms) (dGetMonth0 ms) (dGetDate ms) (dGetHours ms), true)
      else (some ms, false)
    match res with
    | (none, _) => .error invalidTimeMsg
    | (some ms', full) => .ok (if full then isoOfMs ms' else isoDateOfMs ms')

/-- One attempt of `DATE_TRUNC[^)]*\)\s+AS\s+(\w+)` (flag `i`). -/
def tryAliasAt (s : List Char) : Option String := do
  let s ← dropLitCI "date_trunc".data s
  let s := s.drop (s.takeWhile (fun c => !(c == ')'))).length
  let s ← expectChar ')' s
  let ws := s.takeWhile isSpaceChar
  if ws.isEmpty then none else do
  let s := s.drop ws.length
  let s ← dropLitCI "as".data s
  let ws2 := s.takeWhile isSpaceChar
  if ws2.isEmpty then none else do
  let s := s.drop ws2.length
  let name := s.takeWhile isWordChar
  if name.isEmpty then none else some (String.mk name)

/-- First alias match of the query. -/
def dtAliasAux : Nat → List Char → Option String
  | 0, _ => none
  | _ + 1, [] => none
  | n + 1, c :: t =>
    match tryAliasAt (c :: t) with
    | some a => some a
    | none => dtAliasAux n t

/-- The bucket-label output field name: the `AS` alias after the
`DATE_TRUNC(...)` call, defaulting to `week` (route.ts lines 302–304). -/
def dtAlias (q : String) : String := (dtAliasAux q.data.length q.data).getD "week"

/-- Digit run to number (`parseInt` on the capture of `\d+`). -/
def natOfDigits (l : List Char) : Nat := l.foldl (fun a c => a * 10 + digitVal c) 0

/-- JavaScript `ToNumber` of a string, for the integer literals this engine
produces (fractional/exponent/hex forms do not occur in these values);
other strings are `NaN` (`none`). -/
def strToNumber (s : String) : Option Int :=
  match jsTrim s.data with
  | [] => some 0
  | '-' :: ds => if !ds.isEmpty && ds.all isDigit then some (-(natOfDigits ds : Int)) else none
  | '+' :: ds => if !ds.isEmpty && ds.all isDigit then some ((natOfDigits ds : Int)) else none
  | ds => if ds.all isDigit then some ((natOfDigits ds : Int)) else none

/-- A value stored in a field of a Path A bucket object: the label string,
a number (`none` is `NaN`), or one of the temporary `Set`s (an
insertion-ordered list of distinct values). -/
inductive JField where
  | jStr : String → JField
  | jNum : Option Int → JField
  | jSet : List Value → JField
deriving DecidableEq, Repr

/-- A JavaScript object: fields in creation order, keys unique. -/
abbrev JObj := List (String × JField)

/-- `o[k]` (`none` models `undefined`). -/
def objGet (k : String) : JObj → Option JField
  | [] => none
  | p :: t => if p.1 == k then some p.2 else objGet k t

/-- `o.hasOwnProperty(k)` (fields never hold `undefined` in this engine, so
presence of the key is presence of a value). -/
def objHas (k : String) (o : JObj) : Bool := (objGet k o).isSome

/-- `o[k] = v`: overwrites in place (JavaScript keeps the creation position
of an existing key) or appends a new field. -/
def objSet (k : String) (v : JField) : JObj → JObj
  | [] => [(k, v)]
  | p :: t => if p.1 == k then (k, v) :: t else p :: objSet k v t

/-- First-occurrence lookup in an association list (`Map.get`). -/
def alGet (k : String) : List (String × α) → Option α
  | [] => none
  | p :: t => if p.1 == k then some p.2 else alGet k t

/-- `Map.get` after a `has` check: the bucket object under a present key. -/
def alGetD (k : String) (m : List (String × JObj)) : JObj := (alGet k m).getD []

/-- `if (originalQuery.includes('COUNT(user_id)') ||
originalQuery.includes('COUNT(*)')) resultRow.user_count = 0`
(route.ts lines 307–309). -/
def dtNewRowUser (q : String) (o : JObj) : JObj :=
  if sContains q "COUNT(user_id)" || sContains q "COUNT(*)" then
    objSet "user_count" (.jNum (some 0)) o
  else o

/-- `if (originalQuery.includes('COUNT(DISTINCT country)')) {
resultRow.country_count = 0; resultRow._countries = new Set() }`
(route.ts lines 310–313). -/
def dtNewRowCountry (q : String) (o : JObj) : JObj :=
  if sContains q "COUNT(DISTINCT country)" then
    objSet "_countries" (.jSet []) (objSet "country_count" (.jNum (some 0)) o)
  else o

/-- The `user_segment` analogue (route.ts lines 314–317). -/
def dtNewRowSeg (q : String) (o : JObj) : JObj :=
  if sContains q "COUNT(DISTINCT user_segment)" then
    objSet "_segments" (.jSet []) (objSet "segment_count" (.jNum (some 0)) o)
  else o

/-- A fresh Path A bucket object (route.ts lines 297–319):
`resultRow[alias] = truncatedDate` first, then each aggregate whose trigger
substring occurs (case-sensitively) in the query creates its counter
fields — overwriting the label field when the alias collides with a
counter name. -/
def dtNewRow (q : String) (lbl : String) : JObj :=
  dtNewRowSeg q (dtNewRowCountry q (dtNewRowUser q (objSet (dtAlias q) (.jStr lbl) [])))

/-- `Set.add`. -/
def setAdd (v : Value) (l : List Value) : List Value :=
  if l.contains v then l else l ++ [v]

/-- `resultRow.user_count++`: JavaScript coerces the current value with
`ToNumber` and stores the incremented number — `NaN` when the field holds a
non-numeric string (an alias-collision label) or `NaN`; a `Set` object also
coerces to `NaN`. -/
def jsIncr : Option JField → JField
  | some (.jNum (some n)) => .jNum (some (n + 1))
  | some (.jNum none) => .jNum none
  | some (.jStr s) => .jNum ((strToNumber s).map (· + 1))
  | some (.jSet _) => .jNum none
  | none => .jNum none

/-- The `TypeError` of `resultRow._countries.add` / `resultRow._segments.add`
when the set field does not exist (the counter exists only through the `AS`
alias). -/
def dtAddTypeError : String :=
  "TypeError: Cannot read properties of undefined (reading 'add')"

/-- `if (resultRow.hasOwnProperty('country_count') && row.country) {
resultRow._countries.add(row.country); resultRow.country_count =
resultRow._countries.size }` (route.ts lines 328–331). -/
def dtUpdateCountries (row : Row) (o : JObj) : Except String JObj :=
  if objHas "country_count" o && jsTruthy (rowGet row "country") then
    match objGet "_countries" o with
    | some (.jSet vs) =>
      let vs' := match rowGet row "country" with
        | some v => setAdd v vs
        | none => vs
      .ok (objSet "country_count" (.jNum (some (vs'.length : Int)))
        (objSet "_countries" (.jSet vs') o))
    | _ => .error dtAddTypeError
  else .ok o

/-- The `user_segment` analogue (route.ts lines 332–335). -/
def dtUpdateSegments (row : Row) (o : JObj) : Except String JObj :=
  if objHas "segment_count" o && jsTruthy (rowGet row "user_segment") then
    match objGet "_segments" o with
    | some (.jSet vs) =>
      let vs' := match rowGet row "user_segment" with
        | some v => setAdd v vs
        | none => vs
      .ok (objSet "segment_count" (.jNum (some (vs'.length : Int)))
        (objSet "_segments" (.jSet vs') o))
    | _ => .error dtAddTypeError
  else .ok o

/-- Per-row update of a bucket (route.ts lines 322–335): every check is a
field-presence check (`hasOwnProperty`), so an `AS` alias named like a
counter participates; `user_count++` coerces, the missing `.add` targets
throw. -/
def dtUpdateRow (row : Row) (o : JObj) : Except String JObj :=
  match dtUpdateCountries row
      (if objHas "user_count" o then objSet "user_count" (jsIncr (objGet "user_count" o)) o
       else o) with
  | .error e => .error e
  | .ok o2 => dtUpdateSegments row o2

/-- Processing one row of Path A (route.ts lines 264–336): a falsy
`row[column]` is skipped; otherwise the truncated label is computed (an
Invalid Date throws), the row's bucket is created if absent, and the
per-row update runs (it can throw a `TypeError`, see `dtUpdateRow`). -/
def dtStep (q prec col : String) (m : List (String × JObj)) (row : Row) :
    Except String (List (String × JObj)) :=
  let v := rowGet row col
  if !(jsTruthy v) then .ok m
  else
    match bucketLabel prec (match v with | some val => jsNewDate val | none => none) with
    | .error e => .error e
    | .ok lbl =>
      let m' := if alContains lbl m then m else alInsert lbl (dtNewRow q lbl) m
      match dtUpdateRow row (alGetD lbl m') with
      | .error e => .error e
      | .ok o => .ok (alUpdate lbl (fun _ => o) m')

/-- Fold `dtStep` over the fetched rows. -/
def dtBuild (q prec col : String) :
    List (String × JObj) → List Row → Except String (List (String × JObj))
  | m, [] => .ok m
  | m, row :: rest =>
    match dtStep q prec col m row with
    | .error e => .error e
    | .ok m' => dtBuild q prec col m' rest

/-- Serialize a bucket-object field (the `jSet` arm is unreachable in
`dtCleanRow`'s output: the only set-valued fields are the deleted ones; a
`NaN` number stays `NaN` in the returned object). -/
def jFieldValue : JField → Value
  | .jStr s => .vStr s
  | .jNum (some n) => .vNum n
  | .jNum none => .vNaN
  | .jSet _ => .vNull

/-- `{ ...row }` followed by `delete cleanRow._countries; delete
cleanRow._segments` (route.ts lines 339–344): every other field survives in
creation order. -/
def dtCleanRow (o : JObj) : Row :=
  (o.filter (fun p => !(p.1 == "_countries") && !(p.1 == "_segments"))).map
    (fun p => (p.1, jFieldValue p.2))

/-- One attempt of `ORDER\s+BY\s+(\w+)(?:\s+(ASC|DESC))?` (flag `i`):
returns (column, captured direction as written). -/
def tryOrderAt (s : List Char) : Option (String × Option String) := do
  let s ← dropLitCI "order".data s
  let ws := s.takeWhile isSpaceChar
  if ws.isEmpty then none else do
  let s := s.drop ws.length
  let s ← dropLitCI "by".data s
  let ws2 := s.takeWhile isSpaceChar
  if ws2.isEmpty then none else do
  let s := s.drop ws2.length
  let col := s.takeWhile isWordChar
  if col.isEmpty then none else do
  let s := s.drop col.length
  let dir :=
    let ws3 := s.takeWhile isSpaceChar
    if ws3.isEmpty then none else
    let s' := s.drop ws3.length
    match dropLitCI "asc".data s' with
    | some _ => some (String.mk (s'.take 3))
    | none =>
      match dropLitCI "desc".data s' with
      | some _ => some (String.mk (s'.take 4))
      | none => none
  some (String.mk col, dir)

/-- First `ORDER BY` match of the query. -/
def dtOrderAux : Nat → List Char → Option (String × Option String)
  | 0, _ => none
  | _ + 1, [] => none
  | n + 1, c :: t =>
    match tryOrderAt (c :: t) with
    | some r => some r
    | none => dtOrderAux n t

/-- The parsed `ORDER BY` clause, if any. -/
def dtOrder (q : String) : Option (String × Option String) :=
  dtOrderAux q.data.length q.data

/-- One attempt of `LIMIT\s+(\d+)` (flag `i`). -/
def tryLimitAt (s : List Char) : Option Nat := do
  let s ← dropLitCI "limit".data s
  let ws := s.takeWhile isSpaceChar
  if ws.isEmpty then none else do
  let s := s.drop ws.length
  let ds := s.takeWhile isDigit
  if ds.isEmpty then none else some (natOfDigits ds)

/-- First `LIMIT` match of the query. -/
def limitOfAux : Nat → List Char → Option Nat
  | 0, _ => none
  | _ + 1, [] => none
  | n + 1, c :: t =>
    match tryLimitAt (c :: t) with
    | some r => some r
    | none => limitOfAux n t

/-- The parsed `LIMIT` value, if any. -/
def limitOf (q : String) : Option Nat := limitOfAux q.data.length q.data

/-- `ToNumber` of a row field (`undefined` and `NaN` give `none`). -/
def toNumberOpt : Option Value → Option Int
  | none => none
  | some .vNull => some 0
  | some (.vBool b) => some (if b then 1 else 0)
  | some (.vNum n) => some n
  | some .vNaN => none
  | some (.vStr s) => strToNumber s

/-- JavaScript `a < b` on row fields: string–string compares
lexicographically (code points suffice for the ASCII values here), any other
combination numerically; `false` when either side is `NaN`. -/
def jsLtOpt (a b : Option Value) : Bool :=
  match a, b with
  | some (.vStr x), some (.vStr y) => decide (x < y)
  | _, _ =>
    match toNumberOpt a, toNumberOpt b with
    | some x, some y => decide (x < y)
    | _, _ => false

/-- The `ORDER BY` comparator of Path A (route.ts lines 352–359). -/
def dtComp (col : String) (asc : Bool) (a b : Row) : Int :=
  let av := rowGet a col
  let bv := rowGet b col
  if jsLtOpt av bv then (if asc then -1 else 1)
  else if jsLtOpt bv av then (if asc then 1 else -1)
  else 0

/-- The tail of `processDateTruncQuery` (route.ts lines 338–366): serialize
the buckets, apply `ORDER BY` if present, and apply `LIMIT` (default:
everything). -/
def dtFinish (q : String) (m : List (String × JObj)) : List Row :=
  let cleaned := (m.map Prod.snd).map dtCleanRow
  let sorted :=
    match dtOrder q with
    | some (ocol, dir) =>
      let asc :=
        match dir with
        | none => true
        | some d => String.mk (d.data.map Char.toUpper) == "ASC"
      jsSortBy (fun a b => decide (dtComp ocol asc a b ≤ 0)) cleaned
    | none => cleaned
  sorted.take ((limitOf q).getD sorted.length)

/-- `processDateTruncQuery` (route.ts lines 243–371): `[]` for empty data or
an unparseable `DATE_TRUNC` pattern; otherwise bucket (`.error` models the
`RangeError` thrown on an Invalid Date) and finish with `dtFinish`. -/
def processDateTruncQuery (rows : List Row) (q : String) : Except String (List Row) :=
  if rows.isEmpty then .ok []
  else
    match dateTruncFirst q with
    | none => .ok []
    | some (prec, capture) =>
      match dtBuild q prec (dtColumnOf capture) [] rows with
      | .error e => .error e
      | .ok m => .ok (dtFinish q m)

/-! ### The dispatcher `executeConvertedQuery` -/

/-- `processGenericGroupBy` (route.ts lines 374–384): raw data truncated to
the query's LIMIT, default 100. -/
def processGenericGroupBy (rows : List Row) (q : String) : List Row :=
  rows.take ((limitOf q).getD 100)

/-- The `canProcess` test of `executeConvertedQuery` (route.ts lines
109–117). -/
def canProcess (query : String) : Bool :=
  let lq := lcData query
  (containsL lq "date_part".data || containsL lq "date_trunc".data ||
   containsL lq "extract".data || containsL lq "group by".data)
  && containsL lq "from".data

/-- First match of `from\s+([a-z0-9_]+)` over the lower-cased query: the
table name (route.ts line 121). -/
def tryFromAt (s : List Char) : Option (List Char) := do
  let s ← dropLitCI "from".data s
  let ws := s.takeWhile isSpaceChar
  if ws.isEmpty then none else do
  let s := s.drop ws.length
  let name := s.takeWhile (fun c => ('a' ≤ c && c ≤ 'z') || ('0' ≤ c && c ≤ '9') || c == '_')
  if name.isEmpty then none else some name

/-- Scan for the first `FROM <identifier>` occurrence. -/
def fromTableAux : Nat → List Char → Option (List Char)
  | 0, _ => none
  | _ + 1, [] => none
  | n + 1, c :: t =>
    match tryFromAt (c :: t) with
    | some name => some name
    | none => fromTableAux n t

/-- The parsed table name of a (lower-cased) query, if any. -/
def fromTable (lq : List Char) : Option (List Char) := fromTableAux lq.length lq

/-- The failure modes of `executeConvertedQuery`. -/
inductive ExecError where
  | cannotParse : ExecError
  | notSupported : ExecError
  | execFailed : String → ExecError
deriving DecidableEq, Repr

/-- `executeConvertedQuery` (route.ts lines 108–156).  The row source is the
oracle `fetch` (the `.limit(10000)` cap is the `take`); `cannotParse` is the
`Cannot parse table name from converted query` throw, `notSupported` the
`Query conversion not supported for this type of query` throw, `execFailed`
the wrapper around errors thrown inside the inner `try`. -/
def executeConvertedQuery (query : String) (fetch : String → Except String (List Row)) :
    Except ExecError (List Row) :=
  let lq := lcData query
  if canProcess query then
    match fromTable lq with
    | none => .error .cannotParse
    | some tbl =>
      match fetch (String.mk tbl) with
      | .error msg =>
        .error (.execFailed
          ("Converted query execution failed: Error: Query execution failed: " ++ msg))
      | .ok data =>
        let data := data.take 10000
        if containsL lq "date_trunc".data then
          match processDateTruncQuery data query with
          | .error e => .error (.execFailed ("Converted query execution failed: " ++ e))
          | .ok rows => .ok rows
        else if containsL lq "date_part".data || containsL lq "extract".data then
          .ok ((processGroupByDatePart data query).map dpFinalizeRow)
        else .ok (processGenericGroupBy data query)
  else .error .notSupported

/-- Decidable equality of `Except` results, for evaluating the engine on
concrete inputs. -/
instance {ε α : Type} [DecidableEq ε] [DecidableEq α] : DecidableEq (Except ε α) := fun x y =>
  match x, y with
  | .ok a, .ok b => if h : a = b then .isTrue (by rw [h]) else .isFalse (by simp [h])
  | .error a, .error b => if h : a = b then .isTrue (by rw [h]) else .isFalse (by simp [h])
  | .ok _, .error _ => .isFalse (by simp)
  | .error _, .ok _ => .isFalse (by simp)

/-! ### Claim-side definitions and measures -/

/-- `canProcess` as claim C1 words it: a recognized date function AND
`group by` AND `from` (all case-insensitive substring tests). -/
def canProcessClaimed (query : String) : Bool :=
  let lq := lcData query
  (containsL lq "date_part".data || containsL lq "date_trunc".data ||
   containsL lq "extract".data)
  && containsL lq "group by".data && containsL lq "from".data

/-- `canProcess` as the amended claim words it: a recognized date function
OR `group by`, AND `from`. -/
def canProcessAmended (query : String) : Bool :=
  let lq := lcData query
  (containsL lq "date_part".data || containsL lq "date_trunc".data ||
   containsL lq "extract".data || containsL lq "group by".data)
  && containsL lq "from".data

/-- The number of positions of `s` at which `pat` occurs as a substring. -/
def countOcc (pat : List Char) : List Char → Nat
  | [] => if startsWithL pat [] then 1 else 0
  | c :: t => countOcc pat t + (if startsWithL pat (c :: t) then 1 else 0)

/-- ASCII lower-casing of a character list (`lcData` on `String.data`). -/
def lcMap (l : List Char) : List Char := l.map Char.toLower

/-- Sum of `user_count` over the Path B buckets. -/
def dpTotalCount (m : List (String × DPRow)) : Nat :=
  (m.map (fun p => p.2.user_count)).sum

/-- The numeric `user_count` field of a Path A bucket, when it exists and
is not `NaN`. -/
def userCountOf (o : JObj) : Option Int :=
  match objGet "user_count" o with
  | some (.jNum v) => v
  | _ => none

/-- Sum of the numeric `user_count`s over the Path A buckets. -/
def dtTotalCount (m : List (String × JObj)) : Int :=
  (m.map (fun p => (userCountOf p.2).getD 0)).sum

/-- The per-bucket shape the update step relies on: a present distinct-count
field comes with its companion `Set`.  It fails exactly when the `AS` alias
collides with `country_count`/`segment_count` without the corresponding
trigger — the configuration whose update throws. -/
def dtWF (o : JObj) : Bool :=
  (!(objHas "country_count" o) ||
    (match objGet "_countries" o with | some (.jSet _) => true | _ => false)) &&
  (!(objHas "segment_count" o) ||
    (match objGet "_segments" o with | some (.jSet _) => true | _ => false))

/-- 101 rows over 101 distinct years: they produce 101 distinct Path B
buckets. -/
def c5Rows : List Row :=
  (List.range 101).map (fun i => [("created_at", Value.vStr (toString (1900 + i) ++ "-01-01"))])

/-- A Path B query grouping by `DATE_PART('year', created_at)`. -/
def c5Query : String :=
  "SELECT DATE_PART('year', created_at) AS y, COUNT(*) AS user_count FROM users GROUP BY y"

/-! ## Supporting lemmas: the stable sort -/

/-- Inserting permutes: `jsInsertBy le x l` is `x :: l` up to order. -/
theorem jsInsertBy_perm (le : α → α → Bool) (x : α) (l : List α) :
    (jsInsertBy le x l).Perm (x :: l) := by
  induction l with
  | nil => simp [jsInsertBy]
  | cons y t ih =>
    by_cases h : le x y = true
    · simp [jsInsertBy, h]
    · simp only [jsInsertBy, h, if_neg, Bool.false_eq_true, not_false_iff]
      exact (ih.cons y).trans (List.Perm.swap x y t)

/-- The sort is a permutation of its input. -/
theorem jsSortBy_perm (le : α → α → Bool) (l : List α) : (jsSortBy le l).Perm l := by
  induction l with
  | nil => simp [jsSortBy]
  | cons x t ih =>
    rw [show jsSortBy le (x :: t) = jsInsertBy le x (jsSortBy le t) from rfl]
    exact (jsInsertBy_perm le x (jsSortBy le t)).trans (ih.cons x)

/-- Inserting into a sorted list keeps it sorted (for a total, transitive
comparator). -/
theorem jsInsertBy_sorted (le : α → α → Bool)
    (htot : ∀ a b, le a b = true ∨ le b a = true)
    (htrans : ∀ a b c, le a b = true → le b c = true → le a c = true)
    (x : α) (l : List α) (hl : l.Pairwise (fun a b => le a b = true)) :
    (jsInsertBy le x l).Pairwise (fun a b => le a b = true) := by
  induction l with
  | nil => simp [jsInsertBy]
  | cons y t ih =>
    rcases List.pairwise_cons.mp hl with ⟨hy, ht⟩
    by_cases h : le x y = true
    · simp only [jsInsertBy, h, if_pos]
      refine List.pairwise_cons.mpr ⟨?_, hl⟩
      intro z hz
      rcases List.mem_cons.mp hz with rfl | hz'
      · exact h
      · exact htrans x y z h (hy z hz')
    · have hyx : le y x = true := (htot x y).resolve_left h
      simp only [jsInsertBy, h, if_neg, Bool.false_eq_true, not_false_iff]
      refine List.pairwise_cons.mpr ⟨?_, ih ht⟩
      intro z hz
      have hz' := (jsInsertBy_perm le x t).mem_iff.mp hz
      rcases List.mem_cons.mp hz' with rfl | hz''
      · exact hyx
      · exact hy z hz''

/-- The sort sorts (for a total, transitive comparator). -/
theorem jsSortBy_sorted (le : α → α → Bool)
    (htot : ∀ a b, le a b = true ∨ le b a = true)
    (htrans : ∀ a b c, le a b = true → le b c = true → le a c = true)
    (l : List α) : (jsSortBy le l).Pairwise (fun a b => le a b = true) := by
  induction l with
  | nil => simp [jsSortBy]
  | cons x t ih =>
    rw [show jsSortBy le (x :: t) = jsInsertBy le x (jsSortBy le t) from rfl]
    exact jsInsertBy_sorted le htot htrans x _ ih

/-! ## Supporting lemmas: Path B counting -/

/-- A key just inserted is present. -/
theorem alContains_alInsert_self (k : String) (v : α) (m : List (String × α)) :
    alContains k (alInsert k v m) = true := by
  induction m with
  | nil => simp [alInsert, alContains]
  | cons p t ih => simpa [alInsert, alContains] using Or.inr ih

/-- Updating a present key with the count increment adds one to the total. -/
theorem dpTotalCount_alUpdate (k : String) (m : List (String × DPRow))
    (h : alContains k m = true) :
    dpTotalCount (alUpdate k (fun r => { r with user_count := r.user_count + 1 }) m) =
      dpTotalCount m + 1 := by
  induction m with
  | nil => simp [alContains] at h
  | cons p t ih =>
    obtain ⟨k', v⟩ := p
    by_cases hk : (k' == k) = true
    · simp [alUpdate, hk, dpTotalCount]
      omega
    · have h' : alContains k t = true := by
        simpa [alContains, hk] using h
      simp only [alUpdate, hk, Bool.false_eq_true, if_neg, not_false_iff]
      have := ih h'
      simp only [dpTotalCount, List.map_cons, List.sum_cons] at *
      omega

/-- Appending a fresh bucket adds its (zero) count. -/
theorem dpTotalCount_alInsert (k : String) (v : DPRow) (m : List (String × DPRow)) :
    dpTotalCount (alInsert k v m) = dpTotalCount m + v.user_count := by
  simp [alInsert, dpTotalCount]

/-- Each processed row adds exactly one to the total count. -/
theorem dpTotalCount_dpStep (q : String) (m : List (String × DPRow)) (row : Row) :
    dpTotalCount (dpStep q m row) = dpTotalCount m + 1 := by
  simp only [dpStep]
  by_cases hc : alContains (joinKeys (computeKeys q row)) m = true
  · rw [if_pos hc]
    exact dpTotalCount_alUpdate _ _ hc
  · rw [if_neg hc]
    rw [dpTotalCount_alUpdate _ _ (alContains_alInsert_self _ _ _),
      dpTotalCount_alInsert]
    simp [dpNewRow]

/-- The bucket counts of Path B always sum to the number of input rows. -/
theorem dpTotalCount_dpBuckets (q : String) (rows : List Row) :
    dpTotalCount (dpBuckets q rows) = rows.length := by
  suffices h : ∀ (l : List Row) (m : List (String × DPRow)),
      dpTotalCount (List.foldl (dpStep q) m l) = dpTotalCount m + l.length by
    simpa [dpBuckets, dpTotalCount] using h rows []
  intro l
  induction l with
  | nil => simp
  | cons r t ih =>
    intro m
    rw [List.foldl_cons, ih, dpTotalCount_dpStep, List.length_cons]
    omega

/-- Totality of the Path B comparator. -/
theorem dpLe_total (a b : DPRow) : dpLe a b = true ∨ dpLe b a = true := by
  simp only [dpLe, decide_eq_true_eq]
  omega

/-- Transitivity of the Path B comparator. -/
theorem dpLe_trans (a b c : DPRow) (h1 : dpLe a b = true) (h2 : dpLe b c = true) :
    dpLe a c = true := by
  simp only [dpLe, decide_eq_true_eq] at *
  omega

/-! ## Claim theorems: C1, C3, C6, C7 -/

/-- Claim C1 (corrected): on the code, `canProcess` is true iff the query
contains `date_part`, `date_trunc`, `extract` OR `group by` (not AND), AND
contains `from`; a query failing the check is rejected with the
unsupported-operation error before any fetch. -/
theorem c1_amended (q : String) (fetch : String → Except String (List Row)) :
    canProcess q = canProcessAmended q ∧
    (canProcess q = false → executeConvertedQuery q fetch = .error .notSupported) := by
  refine ⟨rfl, fun h => ?_⟩
  simp [executeConvertedQuery, h]

/-- Claim C1 as stated is false: a query with `group by` and `from` but no
date function is accepted by `canProcess`, though the claim's conjunction
says it must be rejected. -/
theorem c1_counterexample :
    canProcess "select name from users group by name" = true ∧
    canProcessClaimed "select name from users group by name" = false := by decide

/-- Witness for `c1_amended` at a concrete rejected query. -/
theorem c1_amended_witness :
    canProcess "update x t" = canProcessAmended "update x t" ∧
    executeConvertedQuery "update x t" (fun _ => .ok []) = .error .notSupported :=
  ⟨(c1_amended "update x t" (fun _ => .ok [])).1,
   (c1_amended "update x t" (fun _ => .ok [])).2 (by decide)⟩

/-- Claim C3 (confirmed): in the date-trunc grouping path with precision
`week`, a row whose timestamp column is 2024-03-14 (a Thursday) is bucketed
under the label `2024-03-11` (the preceding Monday), computed by
subtracting `(weekday + 6) mod 7` days (0 = Sunday), setting local
midnight, and formatting as `YYYY-MM-DD`. -/
theorem c3_week_truncation :
    processDateTruncQuery [[("signup_date", Value.vStr "2024-03-14")]]
      "SELECT DATE_TRUNC('week', signup_date) AS week FROM users GROUP BY week" =
    .ok [[("week", Value.vStr "2024-03-11")]] := by decide

/-- Claim C6 (confirmed): in the date-trunc grouping path, if no
`DATE_TRUNC('<precision>', <column>)` pattern parses, the result is an
empty result set and no error is raised, for every input row set. -/
theorem c6_unparseable_empty (rows : List Row) (q : String)
    (h : dateTruncFirst q = none) : processDateTruncQuery rows q = .ok [] := by
  by_cases hr : rows.isEmpty
  · simp [processDateTruncQuery, hr]
  · simp [processDateTruncQuery, hr, h]

/-- Witness for `c6_unparseable_empty` at a concrete query with no
`DATE_TRUNC` call. -/
theorem c6_unparseable_empty_witness :
    dateTruncFirst "select x from t" = none ∧
    processDateTruncQuery [[("a", Value.vNum 1)]] "select x from t" = .ok [] :=
  ⟨by decide, c6_unparseable_empty [[("a", Value.vNum 1)]] "select x from t" (by decide)⟩

/-- Claim C7 (corrected): for an ASCII query (where the model's ASCII
`toLowerCase` and the code's agree) in which no `FROM <identifier>` parses,
`executeConvertedQuery` always fails — with the cannot-parse-table-name
error exactly when the query passes the `canProcess` check, and with the
unsupported-conversion error exactly otherwise — never a success, and no
row fetch is performed (the outcome is independent of the fetch oracle). -/
theorem c7_amended (q : String) (f g : String → Except String (List Row))
    (ha : ∀ c ∈ q.data, c.toNat < 128)
    (h : fromTable (lcData q) = none) :
    (executeConvertedQuery q f = .error .cannotParse ∨
     executeConvertedQuery q f = .error .notSupported) ∧
    (canProcess q = true → executeConvertedQuery q f = .error .cannotParse) ∧
    (canProcess q = false → executeConvertedQuery q f = .error .notSupported) ∧
    executeConvertedQuery q f = executeConvertedQuery q g := by
  by_cases hc : canProcess q
  · simp [executeConvertedQuery, hc, h]
  · simp [executeConvertedQuery, hc]

/-- Claim C7 as stated is false: a query with no parseable `FROM` that
fails the `canProcess` check is rejected with the unsupported-conversion
error, not the cannot-parse-table-name error. -/
theorem c7_counterexample :
    fromTable (lcData "select coalesce(a, b)") = none ∧
    executeConvertedQuery "select coalesce(a, b)" (fun _ => .ok []) =
      .error .notSupported ∧
    ExecError.notSupported ≠ ExecError.cannotParse := by decide

/-- Witness for `c7_amended` at a concrete query whose `from` keyword is
followed by no identifier. -/
theorem c7_amended_witness :
    (executeConvertedQuery "select date_part('hour', x) from )" (fun _ => .ok []) =
        .error .cannotParse ∨
     executeConvertedQuery "select date_part('hour', x) from )" (fun _ => .ok []) =
        .error .notSupported) ∧
    (canProcess "select date_part('hour', x) from )" = true →
      executeConvertedQuery "select date_part('hour', x) from )" (fun _ => .ok []) =
        .error .cannotParse) ∧
    (canProcess "select date_part('hour', x) from )" = false →
      executeConvertedQuery "select date_part('hour', x) from )" (fun _ => .ok []) =
        .error .notSupported) ∧
    executeConvertedQuery "select date_part('hour', x) from )" (fun _ => .ok []) =
      executeConvertedQuery "select date_part('hour', x) from )" (fun _ => .error "x") :=
  c7_amended "select date_part('hour', x) from )" _ _ (by decide) (by decide)

/-- Claim C5 (corrected): in the date-part grouping path (a query with at
least one parseable `DATE_PART` call), the result is the descending-by-
`user_count` stable sort of the buckets truncated to at most 100 rows,
regardless of any LIMIT clause in the query text; the per-bucket
`user_count` values BEFORE that 100-row truncation sum to the number of
input rows (after the truncation they may sum to less). -/
theorem c5_amended (q : String) (rows : List Row) (h : datePartMatches q ≠ []) :
    processGroupByDatePart rows q =
      (jsSortBy dpLe ((dpBuckets q rows).map Prod.snd)).take 100 ∧
    List.Pairwise (fun a b : DPRow => b.user_count ≤ a.user_count)
      (processGroupByDatePart rows q) ∧
    dpTotalCount (dpBuckets q rows) = rows.length := by
  have hm : (datePartMatches q).isEmpty = false := by
    cases hq : datePartMatches q with
    | nil => exact absurd hq h
    | cons a t => rfl
  have heq : processGroupByDatePart rows q =
      (jsSortBy dpLe ((dpBuckets q rows).map Prod.snd)).take 100 := by
    by_cases hr : rows.isEmpty
    · obtain rfl : rows = [] := List.isEmpty_iff.mp hr
      simp [processGroupByDatePart, dpBuckets, jsSortBy]
    · simp [processGroupByDatePart, hm, hr]
  refine ⟨heq, ?_, dpTotalCount_dpBuckets q rows⟩
  rw [heq]
  have hs := jsSortBy_sorted dpLe dpLe_total dpLe_trans ((dpBuckets q rows).map Prod.snd)
  have hs' := List.Pairwise.sublist (List.take_sublist 100 _) hs
  exact hs'.imp (fun hab => by
    simp only [dpLe, decide_eq_true_eq] at hab
    omega)

/-- Claim C5 as stated is false: on 101 rows spanning 101 distinct year
buckets, the returned rows' `user_count` values sum to 100 (the truncation
dropped a bucket), not to the number of input rows. -/
theorem c5_counterexample :
    ((processGroupByDatePart c5Rows c5Query).map DPRow.user_count).sum ≠ c5Rows.length := by
  decide

/-- Witness for `c5_amended` at a concrete one-row query. -/
theorem c5_amended_witness :
    processGroupByDatePart [[("created_at", Value.vStr "2024-03-14")]]
        "SELECT DATE_PART('hour', created_at) AS h FROM t GROUP BY h" =
      (jsSortBy dpLe
        ((dpBuckets "SELECT DATE_PART('hour', created_at) AS h FROM t GROUP BY h"
          [[("created_at", Value.vStr "2024-03-14")]]).map Prod.snd)).take 100 ∧
    List.Pairwise (fun a b : DPRow => b.user_count ≤ a.user_count)
      (processGroupByDatePart [[("created_at", Value.vStr "2024-03-14")]]
        "SELECT DATE_PART('hour', created_at) AS h FROM t GROUP BY h") ∧
    dpTotalCount (dpBuckets "SELECT DATE_PART('hour', created_at) AS h FROM t GROUP BY h"
        [[("created_at", Value.vStr "2024-03-14")]]) =
      [[(("created_at" : String), Value.vStr "2024-03-14")]].length :=
  c5_amended "SELECT DATE_PART('hour', created_at) AS h FROM t GROUP BY h"
    [[("created_at", Value.vStr "2024-03-14")]] (by decide)

/-! ## Supporting lemmas: Path B bucket fields -/

/-- A predicate on values survives `alUpdate` when it survives the update
function. -/
theorem alUpdate_mem_imp {α : Type} (P : α → Prop) (k : String) (f : α → α)
    (m : List (String × α)) (hm : ∀ p ∈ m, P p.2) (hf : ∀ v, P v → P (f v)) :
    ∀ p ∈ alUpdate k f m, P p.2 := by
  induction m with
  | nil => simp [alUpdate]
  | cons p0 t ih =>
    obtain ⟨k', v⟩ := p0
    intro p hp
    by_cases hk : (k' == k) = true
    · simp only [alUpdate, hk, if_pos] at hp
      rcases List.mem_cons.mp hp with rfl | hp'
      · exact hf v (hm (k', v) (List.mem_cons_self _ _))
      · exact hm p (List.mem_cons_of_mem _ hp')
    · simp only [alUpdate, hk, Bool.false_eq_true, if_neg, not_false_iff] at hp
      rcases List.mem_cons.mp hp with rfl | hp'
      · exact hm (k', v) (List.mem_cons_self _ _)
      · exact ih (fun p hp => hm p (List.mem_cons_of_mem _ hp)) p hp'

/-- Every Path B bucket carries the alias fields of the row that created
it: they equal `dpNewRow`'s fields for that row's key tuple (the count
increments never touch them). -/
theorem dpBuckets_fields (q : String) (rows : List Row) :
    ∀ p ∈ dpBuckets q rows, ∃ row ∈ rows,
      p.2.signup_hour = (dpNewRow q (computeKeys q row)).signup_hour ∧
      p.2.signup_day_of_week = (dpNewRow q (computeKeys q row)).signup_day_of_week := by
  have main : ∀ (l : List Row) (m : List (String × DPRow)),
      (∀ row ∈ l, row ∈ rows) →
      (∀ p ∈ m, ∃ row ∈ rows,
        p.2.signup_hour = (dpNewRow q (computeKeys q row)).signup_hour ∧
        p.2.signup_day_of_week = (dpNewRow q (computeKeys q row)).signup_day_of_week) →
      ∀ p ∈ List.foldl (dpStep q) m l, ∃ row ∈ rows,
        p.2.signup_hour = (dpNewRow q (computeKeys q row)).signup_hour ∧
        p.2.signup_day_of_week = (dpNewRow q (computeKeys q row)).signup_day_of_week := by
    intro l
    induction l with
    | nil =>
      intro m _ hm
      simpa using hm
    | cons r t ih =>
      intro m hl hm
      rw [List.foldl_cons]
      have hr : r ∈ rows := hl r (List.mem_cons_self _ _)
      refine ih (dpStep q m r) (fun row hrow => hl row (List.mem_cons_of_mem _ hrow)) ?_
      simp only [dpStep]
      refine alUpdate_mem_imp
        (fun v : DPRow => ∃ row ∈ rows,
          v.signup_hour = (dpNewRow q (computeKeys q row)).signup_hour ∧
          v.signup_day_of_week = (dpNewRow q (computeKeys q row)).signup_day_of_week)
        _ _ _ ?_ ?_
      · by_cases hc : alContains (joinKeys (computeKeys q r)) m = true
        · rw [if_pos hc]; exact hm
        · rw [if_neg hc]
          intro p hp
          rcases List.mem_append.mp hp with hp' | hp'
          · exact hm p hp'
          · have hp2 : p = (joinKeys (computeKeys q r), dpNewRow q (computeKeys q r)) :=
              List.mem_singleton.mp hp'
            exact ⟨r, hr, by rw [hp2], by rw [hp2]⟩
      · intro v hv
        exact hv
  intro p hp
  exact main rows [] (fun row h => h) (by simp) p hp

/-- Claim C4 (corrected): in the date-part grouping path, when the query
text mentions both `signup_hour` and `signup_day_of_week`, every result
row's `signup_hour` equals the first component of its bucket's key tuple,
but `signup_day_of_week` equals `keys[1] || keys[0]`: the second component
only when that one is truthy, otherwise it falls back to the first
component (so a second component of 0, i.e. Sunday, is replaced by the
first component). -/
theorem c4_amended (q : String) (rows : List Row)
    (h1 : sContains q "signup_hour" = true)
    (h2 : sContains q "signup_day_of_week" = true) :
    ∀ r ∈ processGroupByDatePart rows q, ∃ row ∈ rows,
      r.signup_hour = some ((computeKeys q row).headD .kNull) ∧
      r.signup_day_of_week = some (secondOrFirst (computeKeys q row)) := by
  intro r hr
  by_cases hg : ((datePartMatches q).isEmpty || rows.isEmpty) = true
  · simp [processGroupByDatePart, hg] at hr
  · simp only [processGroupByDatePart, hg, Bool.false_eq_true, if_neg,
      not_false_iff] at hr
    have hr2 : r ∈ jsSortBy dpLe ((dpBuckets q rows).map Prod.snd) :=
      List.take_subset _ _ hr
    have hr3 : r ∈ (dpBuckets q rows).map Prod.snd :=
      (jsSortBy_perm _ _).mem_iff.mp hr2
    obtain ⟨p, hp, rfl⟩ := List.mem_map.mp hr3
    obtain ⟨row, hrow, hh, hd⟩ := dpBuckets_fields q rows p hp
    refine ⟨row, hrow, ?_, ?_⟩
    · rw [hh]; simp [dpNewRow, h1]
    · rw [hd]; simp [dpNewRow, h2]

/-- Claim C4 as stated is false: for a Sunday 05:00 row, the key tuple is
`(5, 0)` but the result row's `signup_day_of_week` is 5 (the hour), not the
second component 0, because `0` is falsy in `keys[1] || keys[0]`. -/
theorem c4_counterexample :
    processGroupByDatePart [[("created_at", Value.vStr "2024-03-17T05:00:00")]]
      "SELECT DATE_PART('hour', created_at) AS signup_hour, DATE_PART('dow', created_at) AS signup_day_of_week FROM users GROUP BY 1, 2" =
      [{ signup_hour := some (KeyVal.kNum 5), signup_day_of_week := some (KeyVal.kNum 5),
         user_count := 1 }] ∧
    computeKeys
      "SELECT DATE_PART('hour', created_at) AS signup_hour, DATE_PART('dow', created_at) AS signup_day_of_week FROM users GROUP BY 1, 2"
      [("created_at", Value.vStr "2024-03-17T05:00:00")] =
      [KeyVal.kNum 5, KeyVal.kNum 0] ∧
    some (KeyVal.kNum 5) ≠ some (KeyVal.kNum 0) := by decide

/-- Witness for `c4_amended` at a concrete query and row set. -/
theorem c4_amended_witness :
    ∃ row ∈ [[(("created_at" : String), Value.vStr "2024-03-14")]],
      ((processGroupByDatePart [[("created_at", Value.vStr "2024-03-14")]]
        "SELECT DATE_PART('hour', created_at) AS signup_hour, DATE_PART('dow', created_at) AS signup_day_of_week FROM users").headD
          ⟨none, none, 0⟩).signup_hour = some ((computeKeys
        "SELECT DATE_PART('hour', created_at) AS signup_hour, DATE_PART('dow', created_at) AS signup_day_of_week FROM users"
        row).headD .kNull) ∧
      ((processGroupByDatePart [[("created_at", Value.vStr "2024-03-14")]]
        "SELECT DATE_PART('hour', created_at) AS signup_hour, DATE_PART('dow', created_at) AS signup_day_of_week FROM users").headD
          ⟨none, none, 0⟩).signup_day_of_week = some (secondOrFirst (computeKeys
        "SELECT DATE_PART('hour', created_at) AS signup_hour, DATE_PART('dow', created_at) AS signup_day_of_week FROM users"
        row)) :=
  c4_amended
    "SELECT DATE_PART('hour', created_at) AS signup_hour, DATE_PART('dow', created_at) AS signup_day_of_week FROM users"
    [[("created_at", Value.vStr "2024-03-14")]] (by decide) (by decide)
    ((processGroupByDatePart [[("created_at", Value.vStr "2024-03-14")]]
      "SELECT DATE_PART('hour', created_at) AS signup_hour, DATE_PART('dow', created_at) AS signup_day_of_week FROM users").headD
        ⟨none, none, 0⟩) (by decide)

/-! ## Supporting lemmas: Path A bucket objects -/

/-- Reading the key just written. -/
theorem objGet_objSet_self (k : String) (v : JField) (o : JObj) :
    objGet k (objSet k v o) = some v := by
  induction o with
  | nil => simp [objGet, objSet]
  | cons p t ih =>
    by_cases hp : (p.1 == k) = true
    · simp [objSet, hp, objGet]
    · simp [objSet, hp, objGet, ih]

/-- Writing another key does not change a read. -/
theorem objGet_objSet_ne (k k' : String) (h : (k' == k) = false) (v : JField) (o : JObj) :
    objGet k (objSet k' v o) = objGet k o := by
  induction o with
  | nil => simp [objGet, objSet, h]
  | cons p t ih =>
    by_cases hp : (p.1 == k') = true
    · have hpk : (p.1 == k) = false := by
        rw [show p.1 = k' from eq_of_beq hp]
        exact h
      simp [objSet, hp, objGet, h, hpk]
    · simp [objSet, hp, objGet, ih]

/-- The just-written key is present. -/
theorem objHas_objSet_self (k : String) (v : JField) (o : JObj) :
    objHas k (objSet k v o) = true := by
  simp [objHas, objGet_objSet_self]

/-- Writing another key does not change presence. -/
theorem objHas_objSet_ne (k k' : String) (h : (k' == k) = false) (v : JField) (o : JObj) :
    objHas k (objSet k' v o) = objHas k o := by
  simp [objHas, objGet_objSet_ne k k' h]

/-- A contained key has a first value, and that binding is a member. -/
theorem alGet_of_contains {α : Type} (k : String) (m : List (String × α))
    (h : alContains k m = true) : ∃ v, alGet k m = some v ∧ (k, v) ∈ m := by
  induction m with
  | nil => simp [alContains] at h
  | cons p t ih =>
    obtain ⟨pk, pv⟩ := p
    by_cases hp : (pk == k) = true
    · have hpe : pk = k := eq_of_beq hp
      subst hpe
      exact ⟨pv, by simp [alGet], List.mem_cons_self _ _⟩
    · have h' : alContains k t = true := by
        simpa [alContains, hp] using h
      obtain ⟨v, hg, hm⟩ := ih h'
      exact ⟨v, by simp [alGet, hp, hg], List.mem_cons_of_mem _ hm⟩

/-- Lookup after inserting a fresh key finds it. -/
theorem alGet_alInsert_self {α : Type} (k : String) (v : α) (m : List (String × α))
    (h : alContains k m = false) : alGet k (alInsert k v m) = some v := by
  induction m with
  | nil => simp [alInsert, alGet]
  | cons p t ih =>
    obtain ⟨pk, pv⟩ := p
    simp only [alContains, Bool.or_eq_false_iff] at h
    have ih' := ih h.2
    simp only [alInsert] at ih' ⊢
    simp [alGet, h.1, ih']

/-- `alUpdate` does not change which keys are present. -/
theorem alContains_alUpdate {α : Type} (k k' : String) (f : α → α) (m : List (String × α)) :
    alContains k (alUpdate k' f m) = alContains k m := by
  induction m with
  | nil => simp [alUpdate]
  | cons p t ih =>
    obtain ⟨k0, v⟩ := p
    by_cases hk : (k0 == k') = true
    · simp [alUpdate, hk, alContains]
    · simp [alUpdate, hk, alContains, ih]

/-- The `user_count` init stage does not touch other keys. -/
theorem dtNewRowUser_get (q : String) (o : JObj) (k : String)
    (hk : ("user_count" == k) = false) :
    objGet k (dtNewRowUser q o) = objGet k o := by
  unfold dtNewRowUser
  by_cases h : (sContains q "COUNT(user_id)" || sContains q "COUNT(*)") = true
  · rw [if_pos h, objGet_objSet_ne k "user_count" hk]
  · rw [if_neg h]

/-- The country init stage does not touch other keys. -/
theorem dtNewRowCountry_get (q : String) (o : JObj) (k : String)
    (hk1 : ("country_count" == k) = false) (hk2 : ("_countries" == k) = false) :
    objGet k (dtNewRowCountry q o) = objGet k o := by
  unfold dtNewRowCountry
  by_cases h : sContains q "COUNT(DISTINCT country)" = true
  · rw [if_pos h, objGet_objSet_ne k "_countries" hk2,
      objGet_objSet_ne k "country_count" hk1]
  · rw [if_neg h]

/-- The segment init stage does not touch other keys. -/
theorem dtNewRowSeg_get (q : String) (o : JObj) (k : String)
    (hk1 : ("segment_count" == k) = false) (hk2 : ("_segments" == k) = false) :
    objGet k (dtNewRowSeg q o) = objGet k o := by
  unfold dtNewRowSeg
  by_cases h : sContains q "COUNT(DISTINCT user_segment)" = true
  · rw [if_pos h, objGet_objSet_ne k "_segments" hk2,
      objGet_objSet_ne k "segment_count" hk1]
  · rw [if_neg h]

/-- With the `COUNT(*)` trigger in the query, a fresh bucket counts from
zero (even when the alias collides with `user_count`: the init overwrites
the label). -/
theorem dtNewRow_count (q lbl : String) (hq : sContains q "COUNT(*)" = true) :
    userCountOf (dtNewRow q lbl) = some 0 := by
  unfold dtNewRow userCountOf
  rw [dtNewRowSeg_get q _ _ (by decide) (by decide),
    dtNewRowCountry_get q _ _ (by decide) (by decide)]
  unfold dtNewRowUser
  rw [if_pos (by rw [hq, Bool.or_true]), objGet_objSet_self]

/-- A fresh bucket of a trigger-free query is just the alias-labelled
field. -/
theorem dtNewRow_label_only (q lbl : String)
    (h1 : sContains q "COUNT(user_id)" = false) (h2 : sContains q "COUNT(*)" = false)
    (h3 : sContains q "COUNT(DISTINCT country)" = false)
    (h4 : sContains q "COUNT(DISTINCT user_segment)" = false) :
    dtNewRow q lbl = [(dtAlias q, .jStr lbl)] := by
  unfold dtNewRow dtNewRowUser dtNewRowCountry dtNewRowSeg
  rw [h1, h2, h3, h4]
  simp [objSet]

/-- A fresh bucket is well-formed unless the alias collides with a
distinct-count name whose trigger is absent. -/
theorem dtNewRow_wf (q lbl : String)
    (hac : (dtAlias q == "country_count") = false)
    (has : (dtAlias q == "segment_count") = false) :
    dtWF (dtNewRow q lbl) = true := by
  unfold dtWF
  rw [Bool.and_eq_true]
  constructor
  · by_cases h3 : sContains q "COUNT(DISTINCT country)" = true
    · have hset : objGet "_countries" (dtNewRow q lbl) = some (.jSet []) := by
        unfold dtNewRow
        rw [dtNewRowSeg_get q _ _ (by decide) (by decide)]
        unfold dtNewRowCountry
        rw [if_pos h3, objGet_objSet_self]
      rw [hset]
      simp
    · have hnc : objHas "country_count" (dtNewRow q lbl) = false := by
        unfold objHas
        have hrw : objGet "country_count" (dtNewRow q lbl) =
            objGet "country_count" (objSet (dtAlias q) (.jStr lbl) []) := by
          unfold dtNewRow
          rw [dtNewRowSeg_get q _ _ (by decide) (by decide)]
          unfold dtNewRowCountry
          rw [if_neg h3]
          exact dtNewRowUser_get q _ _ (by decide)
        have hnone : objGet "country_count" (objSet (dtAlias q) (.jStr lbl) []) = none := by
          simp [objSet, objGet, hac]
        rw [hrw, hnone]
        rfl
      rw [hnc]
      simp
  · by_cases h4 : sContains q "COUNT(DISTINCT user_segment)" = true
    · have hset : objGet "_segments" (dtNewRow q lbl) = some (.jSet []) := by
        unfold dtNewRow dtNewRowSeg
        rw [if_pos h4, objGet_objSet_self]
      rw [hset]
      simp
    · have hns : objHas "segment_count" (dtNewRow q lbl) = false := by
        unfold objHas
        have hrw : objGet "segment_count" (dtNewRow q lbl) =
            objGet "segment_count" (objSet (dtAlias q) (.jStr lbl) []) := by
          unfold dtNewRow dtNewRowSeg
          rw [if_neg h4]
          rw [dtNewRowCountry_get q _ _ (by decide) (by decide)]
          exact dtNewRowUser_get q _ _ (by decide)
        have hnone : objGet "segment_count" (objSet (dtAlias q) (.jStr lbl) []) = none := by
          simp [objSet, objGet, has]
        rw [hrw, hnone]
        rfl
      rw [hns]
      simp

/-- The distinct-country update on a well-formed bucket succeeds and keeps
well-formedness. -/
theorem dtUpdateCountries_wf (row : Row) (o : JObj) (h : dtWF o = true) :
    ∃ o', dtUpdateCountries row o = .ok o' ∧ dtWF o' = true := by
  unfold dtUpdateCountries
  by_cases hg : (objHas "country_count" o && jsTruthy (rowGet row "country")) = true
  · rw [if_pos hg]
    rw [Bool.and_eq_true] at hg
    unfold dtWF at h
    rw [Bool.and_eq_true] at h
    obtain ⟨hco, hseg⟩ := h
    rw [hg.1] at hco
    simp only [Bool.not_true, Bool.false_or] at hco
    cases hgc : objGet "_countries" o with
    | none => rw [hgc] at hco; simp at hco
    | some fv =>
      rw [hgc] at hco
      cases fv with
      | jStr s => simp at hco
      | jNum v0 => simp at hco
      | jSet vs =>
        refine ⟨_, rfl, ?_⟩
        unfold dtWF
        rw [Bool.and_eq_true]
        constructor
        · rw [objGet_objSet_ne "_countries" "country_count" (by decide),
            objGet_objSet_self]
          simp
        · rw [objHas_objSet_ne "segment_count" "country_count" (by decide),
            objHas_objSet_ne "segment_count" "_countries" (by decide),
            objGet_objSet_ne "_segments" "country_count" (by decide),
            objGet_objSet_ne "_segments" "_countries" (by decide)]
          exact hseg
  · rw [if_neg hg]
    exact ⟨o, rfl, h⟩

/-- The distinct-segment update on a well-formed bucket succeeds and keeps
well-formedness. -/
theorem dtUpdateSegments_wf (row : Row) (o : JObj) (h : dtWF o = true) :
    ∃ o', dtUpdateSegments row o = .ok o' ∧ dtWF o' = true := by
  unfold dtUpdateSegments
  by_cases hg : (objHas "segment_count" o && jsTruthy (rowGet row "user_segment")) = true
  · rw [if_pos hg]
    rw [Bool.and_eq_true] at hg
    unfold dtWF at h
    rw [Bool.and_eq_true] at h
    obtain ⟨hco, hseg⟩ := h
    rw [hg.1] at hseg
    simp only [Bool.not_true, Bool.false_or] at hseg
    cases hgc : objGet "_segments" o with
    | none => rw [hgc] at hseg; simp at hseg
    | some fv =>
      rw [hgc] at hseg
      cases fv with
      | jStr s => simp at hseg
      | jNum v0 => simp at hseg
      | jSet vs =>
        refine ⟨_, rfl, ?_⟩
        unfold dtWF
        rw [Bool.and_eq_true]
        constructor
        · rw [objHas_objSet_ne "country_count" "segment_count" (by decide),
            objHas_objSet_ne "country_count" "_segments" (by decide),
            objGet_objSet_ne "_countries" "segment_count" (by decide),
            objGet_objSet_ne "_countries" "_segments" (by decide)]
          exact hco
        · rw [objGet_objSet_ne "_segments" "segment_count" (by decide),
            objGet_objSet_self]
          simp
  · rw [if_neg hg]
    exact ⟨o, rfl, h⟩

/-- A successful distinct-country update does not change `user_count`. -/
theorem dtUpdateCountries_user (row : Row) (o o' : JObj)
    (h : dtUpdateCountries row o = .ok o') : userCountOf o' = userCountOf o := by
  unfold dtUpdateCountries at h
  by_cases hg : (objHas "country_count" o && jsTruthy (rowGet row "country")) = true
  · rw [if_pos hg] at h
    cases hgc : objGet "_countries" o with
    | none => rw [hgc] at h; simp at h
    | some fv =>
      rw [hgc] at h
      cases fv with
      | jStr s => simp at h
      | jNum v0 => simp at h
      | jSet vs =>
        dsimp only at h
        injection h with h
        subst h
        unfold userCountOf
        rw [objGet_objSet_ne "user_count" "country_count" (by decide),
          objGet_objSet_ne "user_count" "_countries" (by decide)]
  · rw [if_neg hg] at h
    injection h with h
    subst h
    rfl

/-- A successful distinct-segment update does not change `user_count`. -/
theorem dtUpdateSegments_user (row : Row) (o o' : JObj)
    (h : dtUpdateSegments row o = .ok o') : userCountOf o' = userCountOf o := by
  unfold dtUpdateSegments at h
  by_cases hg : (objHas "segment_count" o && jsTruthy (rowGet row "user_segment")) = true
  · rw [if_pos hg] at h
    cases hgc : objGet "_segments" o with
    | none => rw [hgc] at h; simp at h
    | some fv =>
      rw [hgc] at h
      cases fv with
      | jStr s => simp at h
      | jNum v0 => simp at h
      | jSet vs =>
        dsimp only at h
        injection h with h
        subst h
        unfold userCountOf
        rw [objGet_objSet_ne "user_count" "segment_count" (by decide),
          objGet_objSet_ne "user_count" "_segments" (by decide)]
  · rw [if_neg hg] at h
    injection h with h
    subst h
    rfl

/-- A successful per-row update increments a numeric `user_count`. -/
theorem dtUpdateRow_user (row : Row) (o o' : JObj) (n : Int)
    (hn : userCountOf o = some n) (h : dtUpdateRow row o = .ok o') :
    userCountOf o' = some (n + 1) := by
  have hg1 : objGet "user_count" o = some (.jNum (some n)) := by
    cases hg : objGet "user_count" o with
    | none => simp only [userCountOf, hg] at hn; cases hn
    | some fv =>
      cases fv with
      | jStr s => simp only [userCountOf, hg] at hn; cases hn
      | jSet vs => simp only [userCountOf, hg] at hn; cases hn
      | jNum v0 =>
        simp only [userCountOf, hg] at hn
        rw [hn]
  have hhas : objHas "user_count" o = true := by
    unfold objHas
    rw [hg1]
    rfl
  have ho1 : userCountOf (if objHas "user_count" o then
      objSet "user_count" (jsIncr (objGet "user_count" o)) o else o) = some (n + 1) := by
    rw [if_pos hhas]
    unfold userCountOf
    rw [objGet_objSet_self, hg1]
    rfl
  unfold dtUpdateRow at h
  cases hc : dtUpdateCountries row (if objHas "user_count" o then
      objSet "user_count" (jsIncr (objGet "user_count" o)) o else o) with
  | error e => rw [hc] at h; simp at h
  | ok o2 =>
    rw [hc] at h
    dsimp only at h
    rw [dtUpdateSegments_user row o2 o' h, dtUpdateCountries_user row _ o2 hc]
    exact ho1

/-- On a well-formed bucket the whole per-row update succeeds and keeps
well-formedness. -/
theorem dtUpdateRow_wf (row : Row) (o : JObj) (h : dtWF o = true) :
    ∃ o', dtUpdateRow row o = .ok o' ∧ dtWF o' = true := by
  have h1 : dtWF (if objHas "user_count" o then
      objSet "user_count" (jsIncr (objGet "user_count" o)) o else o) = true := by
    by_cases hu : objHas "user_count" o = true
    · rw [if_pos hu]
      unfold dtWF at h ⊢
      rw [objHas_objSet_ne "country_count" "user_count" (by decide),
        objGet_objSet_ne "_countries" "user_count" (by decide),
        objHas_objSet_ne "segment_count" "user_count" (by decide),
        objGet_objSet_ne "_segments" "user_count" (by decide)]
      exact h
    · rw [if_neg hu]
      exact h
  obtain ⟨o2, hc, h2⟩ := dtUpdateCountries_wf row _ h1
  obtain ⟨o3, hs, h3⟩ := dtUpdateSegments_wf row o2 h2
  refine ⟨o3, ?_, h3⟩
  unfold dtUpdateRow
  rw [hc]
  exact hs

/-- A label-only bucket whose field name is no counter name is a fixed
point of the per-row update. -/
theorem dtUpdateRow_label_only (row : Row) (a lbl : String)
    (h1 : (a == "user_count") = false) (h2 : (a == "country_count") = false)
    (h3 : (a == "segment_count") = false) :
    dtUpdateRow row [(a, .jStr lbl)] = .ok [(a, .jStr lbl)] := by
  simp [dtUpdateRow, dtUpdateCountries, dtUpdateSegments, objHas, objGet, h1, h2, h3]

/-- Every row of `dtFinish` is the cleanup of one bucket. -/
theorem dtFinish_mem (q : String) (m : List (String × JObj)) :
    ∀ r ∈ dtFinish q m, ∃ p ∈ m, r = dtCleanRow p.2 := by
  intro r hr
  simp only [dtFinish] at hr
  have hr' : r ∈ (m.map Prod.snd).map dtCleanRow := by
    cases ho : dtOrder q with
    | none =>
      rw [ho] at hr
      exact List.take_subset _ _ hr
    | some pc =>
      obtain ⟨ocol, dir⟩ := pc
      rw [ho] at hr
      exact (jsSortBy_perm _ _).mem_iff.mp (List.take_subset _ _ hr)
  obtain ⟨v, hv, rfl⟩ := List.mem_map.mp hr'
  obtain ⟨p, hp, rfl⟩ := List.mem_map.mp hv
  exact ⟨p, hp, rfl⟩

/-- Skipping: a row whose value at the grouped column is falsy leaves the
bucket state untouched. -/
theorem dtStep_falsy (q prec col : String) (m : List (String × JObj)) (row : Row)
    (h : jsTruthy (rowGet row col) = false) : dtStep q prec col m row = .ok m := by
  simp [dtStep, h]

/-- A truthy value that is not a valid date aborts the aggregation with the
Invalid Date error. -/
theorem dtStep_invalid (q prec col : String) (m : List (String × JObj)) (row : Row)
    (v : Value) (hg : rowGet row col = some v) (hv : jsTruthy (some v) = true)
    (hd : jsNewDate v = none) :
    dtStep q prec col m row = .error invalidTimeMsg := by
  simp [dtStep, hg, hv, hd, bucketLabel]

/-- A truthy value with a valid date and a computable label is bucketed
when the standing buckets are well-formed and the alias collides with no
distinct-count name: the step succeeds and the label's bucket exists
afterwards. -/
theorem dtStep_bucketed (q prec col : String) (m : List (String × JObj)) (row : Row)
    (v : Value) (ms : Int) (lbl : String)
    (hwfm : ∀ p ∈ m, dtWF p.2 = true)
    (hac : (dtAlias q == "country_count") = false)
    (has : (dtAlias q == "segment_count") = false)
    (hg : rowGet row col = some v)
    (hv : jsTruthy (some v) = true) (hd : jsNewDate v = some ms)
    (hl : bucketLabel prec (some ms) = .ok lbl) :
    ∃ m', dtStep q prec col m row = .ok m' ∧ alContains lbl m' = true := by
  have hM'wf : ∀ p ∈ (if alContains lbl m = true then m
      else alInsert lbl (dtNewRow q lbl) m), dtWF p.2 = true := by
    by_cases hc : alContains lbl m = true
    · rw [if_pos hc]; exact hwfm
    · rw [if_neg hc]
      intro p hp
      rcases List.mem_append.mp hp with hp' | hp'
      · exact hwfm p hp'
      · rw [List.mem_singleton.mp hp']
        exact dtNewRow_wf q lbl hac has
  have hM'contains : alContains lbl (if alContains lbl m = true then m
      else alInsert lbl (dtNewRow q lbl) m) = true := by
    by_cases hc : alContains lbl m = true
    · rw [if_pos hc]; exact hc
    · rw [if_neg hc]; exact alContains_alInsert_self _ _ _
  obtain ⟨v0, hg0, hm0⟩ := alGet_of_contains lbl _ hM'contains
  have hgetd : alGetD lbl (if alContains lbl m = true then m
      else alInsert lbl (dtNewRow q lbl) m) = v0 := by
    unfold alGetD
    rw [hg0]
    rfl
  obtain ⟨o, ho, _⟩ := dtUpdateRow_wf row v0 (hM'wf (lbl, v0) hm0)
  refine ⟨alUpdate lbl (fun _ => o) (if alContains lbl m = true then m
      else alInsert lbl (dtNewRow q lbl) m), ?_, ?_⟩
  · simp only [dtStep, hg, hv, Bool.not_true, Bool.false_eq_true, if_false, hd, hl,
      hgetd, ho]
  · rw [alContains_alUpdate]
    exact hM'contains

/-- Path A fold invariant: a bucket predicate holding of fresh buckets and
preserved by successful per-row updates survives one step. -/
theorem dtStep_mem_imp (P : JObj → Prop) (q prec col : String)
    (hnew : ∀ lbl, P (dtNewRow q lbl))
    (hupd : ∀ row v o, P v → dtUpdateRow row v = .ok o → P o)
    (m m' : List (String × JObj)) (row : Row)
    (hm : ∀ p ∈ m, P p.2) (h : dtStep q prec col m row = .ok m') :
    ∀ p ∈ m', P p.2 := by
  simp only [dtStep] at h
  by_cases hv : jsTruthy (rowGet row col) = true
  · simp only [hv, Bool.not_true, Bool.false_eq_true, if_false] at h
    cases hbl : bucketLabel prec
        (match rowGet row col with | some val => jsNewDate val | none => none) with
    | error e => rw [hbl] at h; cases h
    | ok lbl =>
      rw [hbl] at h
      dsimp only at h
      have hM' : ∀ p ∈ (if alContains lbl m = true then m
          else alInsert lbl (dtNewRow q lbl) m), P p.2 := by
        by_cases hc : alContains lbl m = true
        · rw [if_pos hc]; exact hm
        · rw [if_neg hc]
          intro p hp
          rcases List.mem_append.mp hp with hp' | hp'
          · exact hm p hp'
          · rw [List.mem_singleton.mp hp']
            exact hnew lbl
      have hcont : alContains lbl (if alContains lbl m = true then m
          else alInsert lbl (dtNewRow q lbl) m) = true := by
        by_cases hc : alContains lbl m = true
        · rw [if_pos hc]; exact hc
        · rw [if_neg hc]; exact alContains_alInsert_self _ _ _
      obtain ⟨v0, hg0, hm0⟩ := alGet_of_contains lbl _ hcont
      have hgetd : alGetD lbl (if alContains lbl m = true then m
          else alInsert lbl (dtNewRow q lbl) m) = v0 := by
        unfold alGetD
        rw [hg0]
        rfl
      cases hu : dtUpdateRow row (alGetD lbl (if alContains lbl m = true then m
          else alInsert lbl (dtNewRow q lbl) m)) with
      | error e => rw [hu] at h; cases h
      | ok o =>
        rw [hu] at h
        dsimp only at h
        injection h with h
        subst h
        have hPo : P o := by
          refine hupd row v0 o (hM' (lbl, v0) hm0) ?_
          rw [hgetd] at hu
          exact hu
        exact alUpdate_mem_imp P lbl (fun _ => o) _ hM' (fun v _ => hPo)
  · have hv' : jsTruthy (rowGet row col) = false := by
      simpa using hv
    rw [hv'] at h
    simp only [Bool.not_false, if_true] at h
    injection h with h
    subst h
    exact hm

/-- Path A fold invariant, over the whole row list. -/
theorem dtBuild_mem_imp (P : JObj → Prop) (q prec col : String)
    (hnew : ∀ lbl, P (dtNewRow q lbl))
    (hupd : ∀ row v o, P v → dtUpdateRow row v = .ok o → P o) :
    ∀ (l : List Row) (m0 m : List (String × JObj)),
      (∀ p ∈ m0, P p.2) → dtBuild q prec col m0 l = .ok m → ∀ p ∈ m, P p.2 := by
  intro l
  induction l with
  | nil =>
    intro m0 m hm0 hb
    simp only [dtBuild] at hb
    injection hb with hb
    subst hb
    exact hm0
  | cons r t ih =>
    intro m0 m hm0 hb
    simp only [dtBuild] at hb
    cases hstep : dtStep q prec col m0 r with
    | error e => rw [hstep] at hb; cases hb
    | ok m1 =>
      rw [hstep] at hb
      exact ih m1 m (dtStep_mem_imp P q prec col hnew hupd m0 m1 r hm0 hstep) hb

/-- Appending a fresh bucket adds its count. -/
theorem dtTotalCount_alInsert (k : String) (v : JObj) (m : List (String × JObj)) :
    dtTotalCount (alInsert k v m) = dtTotalCount m + (userCountOf v).getD 0 := by
  induction m with
  | nil =>
    simp only [alInsert, List.nil_append, dtTotalCount, List.map_cons, List.map_nil,
      List.sum_cons, List.sum_nil]
    omega
  | cons p t ih =>
    simp only [alInsert, List.cons_append] at ih ⊢
    simp only [dtTotalCount, List.map_cons, List.sum_cons] at ih ⊢
    omega

/-- Overwriting a present bucket with an incremented count adds one to the
total. -/
theorem dtTotalCount_alUpdate_const (k : String) (o : JObj) (m : List (String × JObj))
    (v0 : JObj) (n : Int) (hg : alGet k m = some v0) (hv0 : userCountOf v0 = some n)
    (ho : userCountOf o = some (n + 1)) :
    dtTotalCount (alUpdate k (fun _ => o) m) = dtTotalCount m + 1 := by
  induction m with
  | nil => simp [alGet] at hg
  | cons p t ih =>
    obtain ⟨pk, pv⟩ := p
    by_cases hk : (pk == k) = true
    · simp only [alGet, hk, if_pos] at hg
      injection hg with hg
      subst hg
      simp only [alUpdate, hk, if_pos, dtTotalCount, List.map_cons, List.sum_cons]
      rw [ho, hv0]
      simp only [Option.getD_some]
      omega
    · simp only [alGet, hk, Bool.false_eq_true, if_neg, not_false_iff] at hg
      have hrec := ih hg
      simp only [alUpdate, hk, Bool.false_eq_true, if_neg, not_false_iff,
        dtTotalCount, List.map_cons, List.sum_cons] at hrec ⊢
      omega

/-! ## Claim theorems: C9 and C10 -/

/-- Claim C9 (corrected): in the date-trunc grouping path, aggregate
counters are activated by case-sensitive literal substring match; when the
query contains none of `COUNT(user_id)`, `COUNT(*)`,
`COUNT(DISTINCT country)`, `COUNT(DISTINCT user_segment)` (for example a
lowercase `count(*)`) AND the `AS` alias is none of the counter or
temporary-set field names, every result row carries only the bucket-label
field.  Without the alias restriction the original claim fails: an alias
`user_count` is presence-matched by the update and `user_count++` turns the
label into `NaN` (see the counterexample). -/
theorem c9_amended (q : String) (rows : List Row) (res : List Row)
    (h1 : sContains q "COUNT(user_id)" = false) (h2 : sContains q "COUNT(*)" = false)
    (h3 : sContains q "COUNT(DISTINCT country)" = false)
    (h4 : sContains q "COUNT(DISTINCT user_segment)" = false)
    (ha1 : (dtAlias q == "user_count") = false)
    (ha2 : (dtAlias q == "country_count") = false)
    (ha3 : (dtAlias q == "segment_count") = false)
    (ha4 : (dtAlias q == "_countries") = false)
    (ha5 : (dtAlias q == "_segments") = false)
    (hres : processDateTruncQuery rows q = .ok res) :
    ∀ r ∈ res, ∃ lbl, r = [(dtAlias q, Value.vStr lbl)] := by
  intro r hr
  by_cases hrows : rows.isEmpty = true
  · unfold processDateTruncQuery at hres
    rw [if_pos hrows] at hres
    injection hres with hres
    subst hres
    exact absurd hr (List.not_mem_nil r)
  · unfold processDateTruncQuery at hres
    rw [if_neg hrows] at hres
    cases hdt : dateTruncFirst q with
    | none =>
      rw [hdt] at hres
      injection hres with hres
      subst hres
      exact absurd hr (List.not_mem_nil r)
    | some pc =>
      obtain ⟨prec, capture⟩ := pc
      rw [hdt] at hres
      dsimp only at hres
      cases hb : dtBuild q prec (dtColumnOf capture) [] rows with
      | error e => rw [hb] at hres; cases hres
      | ok m =>
        rw [hb] at hres
        injection hres with hres
        subst hres
        have hmem : ∀ p ∈ m, ∃ lbl, p.2 = [(dtAlias q, JField.jStr lbl)] :=
          dtBuild_mem_imp (fun v : JObj => ∃ lbl, v = [(dtAlias q, JField.jStr lbl)])
            q prec (dtColumnOf capture)
            (fun lbl => ⟨lbl, dtNewRow_label_only q lbl h1 h2 h3 h4⟩)
            (fun row v o hv hok => by
              obtain ⟨lbl, rfl⟩ := hv
              rw [dtUpdateRow_label_only row (dtAlias q) lbl ha1 ha2 ha3] at hok
              injection hok with hok
              exact ⟨lbl, hok.symm⟩)
            rows [] m (by simp) hb
        obtain ⟨p, hp, rfl⟩ := dtFinish_mem q m r hr
        obtain ⟨lbl, hpl⟩ := hmem p hp
        refine ⟨lbl, ?_⟩
        rw [hpl]
        simp [dtCleanRow, ha4, ha5, jFieldValue]

/-- Claim C9 as stated is false: with the `AS` alias itself named
`user_count` — and none of the four aggregate trigger substrings present —
the presence-checked `user_count++` hits the label string, and the single
result field holds `NaN`, not the bucket label. -/
theorem c9_counterexample :
    (sContains "select date_trunc('day', d) as user_count from t group by 1"
        "COUNT(user_id)" = false ∧
     sContains "select date_trunc('day', d) as user_count from t group by 1"
        "COUNT(*)" = false ∧
     sContains "select date_trunc('day', d) as user_count from t group by 1"
        "COUNT(DISTINCT country)" = false ∧
     sContains "select date_trunc('day', d) as user_count from t group by 1"
        "COUNT(DISTINCT user_segment)" = false) ∧
    processDateTruncQuery [[("d", Value.vStr "2024-03-14")]]
      "select date_trunc('day', d) as user_count from t group by 1" =
      .ok [[("user_count", Value.vNaN)]] := by decide

/-- Witness for `c9_amended`: a query spelling the aggregate in lowercase
as `count(*)`, with alias `day`, yields rows carrying only the label
field. -/
theorem c9_amended_witness :
    ∃ lbl, [(("day" : String), Value.vStr "2024-03-14")] =
      [(dtAlias "select count(*) as c, date_trunc('day', signup_date) as day from users group by day",
        Value.vStr lbl)] :=
  c9_amended "select count(*) as c, date_trunc('day', signup_date) as day from users group by day"
    [[("signup_date", Value.vStr "2024-03-14")]]
    [[("day", Value.vStr "2024-03-14")]]
    (by decide) (by decide) (by decide) (by decide) (by decide) (by decide) (by decide)
    (by decide) (by decide) (by decide)
    [(("day" : String), Value.vStr "2024-03-14")] (List.mem_cons_self _ _)

/-- Claim C10 (corrected): in the date-trunc grouping path a row with a
falsy value (absent, null, 0, empty string, false) at the grouped column is
excluded from every bucket and every count; but "included iff truthy"
fails: a truthy value that does not parse as a valid date (under the
mandated Date Time String grammar) aborts the whole aggregation with a
RangeError instead of bucketing the row, and an `AS` alias colliding with
`country_count`/`segment_count` makes the update of a truthy row throw a
TypeError.  Away from those collisions a truthy, valid-date row is bucketed
into well-formed buckets, and with `COUNT(*)` tracked the bucket counts of
a successful run sum to exactly the number of truthy rows. -/
theorem c10_amended (q prec colExpr col : String)
    (hp : dateTruncFirst q = some (prec, colExpr))
    (hcol : col = String.mk (stripTrailingCast (jsTrim colExpr.data)))
    (hac : (dtAlias q == "country_count") = false)
    (has : (dtAlias q == "segment_count") = false) :
    (∀ (m : List (String × JObj)) (row : Row),
      jsTruthy (rowGet row col) = false → dtStep q prec col m row = .ok m) ∧
    (∀ (m : List (String × JObj)) (row : Row) (v : Value),
      rowGet row col = some v → jsTruthy (some v) = true → jsNewDate v = none →
      dtStep q prec col m row = .error invalidTimeMsg) ∧
    (∀ (m : List (String × JObj)) (row : Row) (v : Value) (ms : Int) (lbl : String),
      (∀ p ∈ m, dtWF p.2 = true) →
      rowGet row col = some v → jsTruthy (some v) = true → jsNewDate v = some ms →
      bucketLabel prec (some ms) = .ok lbl →
      ∃ m', dtStep q prec col m row = .ok m' ∧ alContains lbl m' = true) ∧
    (sContains q "COUNT(*)" = true →
      ∀ (rows : List Row) (m : List (String × JObj)),
        dtBuild q prec col [] rows = .ok m →
        dtTotalCount m = (rows.countP (fun r => jsTruthy (rowGet r col)) : Int)) := by
  refine ⟨fun m row h => dtStep_falsy q prec col m row h,
    fun m row v hg hv hd => dtStep_invalid q prec col m row v hg hv hd,
    fun m row v ms lbl hwfm hg hv hd hl =>
      dtStep_bucketed q prec col m row v ms lbl hwfm hac has hg hv hd hl,
    fun hq rows m hb => ?_⟩
  have main : ∀ (l : List Row) (m0 m : List (String × JObj)),
      (∀ p ∈ m0, (userCountOf p.2).isSome = true) →
      dtBuild q prec col m0 l = .ok m →
      dtTotalCount m = dtTotalCount m0 +
        (l.countP (fun r => jsTruthy (rowGet r col)) : Int) := by
    intro l
    induction l with
    | nil =>
      intro m0 m hm0 hb
      simp only [dtBuild] at hb
      injection hb with hb
      subst hb
      simp
    | cons r t ih =>
      intro m0 m hm0 hb
      simp only [dtBuild] at hb
      cases hstep : dtStep q prec col m0 r with
      | error e => rw [hstep] at hb; cases hb
      | ok m1 =>
        rw [hstep] at hb
        by_cases hv : jsTruthy (rowGet r col) = true
        · simp only [dtStep, hv, Bool.not_true, Bool.false_eq_true, if_false] at hstep
          cases hbl : bucketLabel prec
              (match rowGet r col with | some val => jsNewDate val | none => none) with
          | error e => rw [hbl] at hstep; cases hstep
          | ok lbl =>
            rw [hbl] at hstep
            dsimp only at hstep
            have hM'some : ∀ p ∈ (if alContains lbl m0 = true then m0
                else alInsert lbl (dtNewRow q lbl) m0),
                (userCountOf p.2).isSome = true := by
              by_cases hc : alContains lbl m0 = true
              · rw [if_pos hc]; exact hm0
              · rw [if_neg hc]
                intro p hp
                rcases List.mem_append.mp hp with hp' | hp'
                · exact hm0 p hp'
                · rw [List.mem_singleton.mp hp']
                  rw [dtNewRow_count q lbl hq]
                  rfl
            have hM'contains : alContains lbl (if alContains lbl m0 = true then m0
                else alInsert lbl (dtNewRow q lbl) m0) = true := by
              by_cases hc : alContains lbl m0 = true
              · rw [if_pos hc]; exact hc
              · rw [if_neg hc]; exact alContains_alInsert_self _ _ _
            have hM'count : dtTotalCount (if alContains lbl m0 = true then m0
                else alInsert lbl (dtNewRow q lbl) m0) = dtTotalCount m0 := by
              by_cases hc : alContains lbl m0 = true
              · rw [if_pos hc]
              · rw [if_neg hc, dtTotalCount_alInsert, dtNewRow_count q lbl hq]
                simp
            obtain ⟨v0, hg0, hm0'⟩ := alGet_of_contains lbl _ hM'contains
            obtain ⟨n, hn⟩ := Option.isSome_iff_exists.mp (hM'some (lbl, v0) hm0')
            have hgetd : alGetD lbl (if alContains lbl m0 = true then m0
                else alInsert lbl (dtNewRow q lbl) m0) = v0 := by
              unfold alGetD
              rw [hg0]
              rfl
            cases hu : dtUpdateRow r (alGetD lbl (if alContains lbl m0 = true then m0
                else alInsert lbl (dtNewRow q lbl) m0)) with
            | error e => rw [hu] at hstep; cases hstep
            | ok o =>
              rw [hu] at hstep
              dsimp only at hstep
              injection hstep with hstep
              have ho : userCountOf o = some (n + 1) := by
                rw [hgetd] at hu
                exact dtUpdateRow_user r v0 o n hn hu
              have hm1some : ∀ p ∈ m1, (userCountOf p.2).isSome = true := by
                rw [← hstep]
                refine alUpdate_mem_imp (fun v : JObj => (userCountOf v).isSome = true)
                  lbl (fun _ => o) _ hM'some ?_
                intro v _
                rw [ho]
                rfl
              have hm1count : dtTotalCount m1 = dtTotalCount m0 + 1 := by
                rw [← hstep,
                  dtTotalCount_alUpdate_const lbl o _ v0 n hg0 hn ho, hM'count]
              rw [ih m1 m hm1some hb, hm1count, List.countP_cons]
              simp only [hv, if_pos]
              push_cast
              omega
        · have hv' : jsTruthy (rowGet r col) = false := by simpa using hv
          rw [dtStep_falsy q prec col m0 r hv'] at hstep
          injection hstep with hstep
          subst hstep
          rw [ih m0 m hm0 hb, List.countP_cons]
          simp [hv']
  have hmain := main rows [] m (by simp) hb
  simpa [dtTotalCount] using hmain

/-- Claim C10 as stated is false: a truthy but unparseable timestamp
(`"oops"`) is not included in any bucket — the whole aggregation errors. -/
theorem c10_counterexample :
    jsTruthy (rowGet [("signup_date", Value.vStr "oops")] "signup_date") = true ∧
    processDateTruncQuery [[("signup_date", Value.vStr "oops")]]
      "SELECT DATE_TRUNC('day', signup_date) AS day FROM users GROUP BY day" =
      .error invalidTimeMsg := by decide

/-- Witness for `c10_amended` at a concrete parsed query with alias
`day`. -/
theorem c10_amended_witness :
    (∀ (m : List (String × JObj)) (row : Row),
      jsTruthy (rowGet row "signup_date") = false →
      dtStep "SELECT COUNT(*) AS user_count, DATE_TRUNC('day', signup_date) AS day FROM users GROUP BY day"
        "day" "signup_date" m row = .ok m) ∧
    (∀ (m : List (String × JObj)) (row : Row) (v : Value),
      rowGet row "signup_date" = some v → jsTruthy (some v) = true → jsNewDate v = none →
      dtStep "SELECT COUNT(*) AS user_count, DATE_TRUNC('day', signup_date) AS day FROM users GROUP BY day"
        "day" "signup_date" m row = .error invalidTimeMsg) ∧
    (∀ (m : List (String × JObj)) (row : Row) (v : Value) (ms : Int) (lbl : String),
      (∀ p ∈ m, dtWF p.2 = true) →
      rowGet row "signup_date" = some v → jsTruthy (some v) = true → jsNewDate v = some ms →
      bucketLabel "day" (some ms) = .ok lbl →
      ∃ m', dtStep "SELECT COUNT(*) AS user_count, DATE_TRUNC('day', signup_date) AS day FROM users GROUP BY day"
        "day" "signup_date" m row = .ok m' ∧ alContains lbl m' = true) ∧
    (sContains "SELECT COUNT(*) AS user_count, DATE_TRUNC('day', signup_date) AS day FROM users GROUP BY day"
        "COUNT(*)" = true →
      ∀ (rows : List Row) (m : List (String × JObj)),
        dtBuild "SELECT COUNT(*) AS user_count, DATE_TRUNC('day', signup_date) AS day FROM users GROUP BY day"
          "day" "signup_date" [] rows = .ok m →
        dtTotalCount m =
          (rows.countP (fun r => jsTruthy (rowGet r "signup_date")) : Int)) :=
  c10_amended
    "SELECT COUNT(*) AS user_count, DATE_TRUNC('day', signup_date) AS day FROM users GROUP BY day"
    "day" "signup_date" "signup_date" (by decide) (by decide) (by decide) (by decide)

/-! ## Supporting lemmas: the normalizer scanners (claims C2 and C8) -/

/-- A prefix of `u` is a prefix of `u ++ v`. -/
theorem startsWithL_append (pat u v : List Char) (h : startsWithL pat u = true) :
    startsWithL pat (u ++ v) = true := by
  induction pat generalizing u with
  | nil => rfl
  | cons p ps ih =>
    cases u with
    | nil => exact absurd h (by simp [startsWithL])
    | cons c cs =>
      simp only [startsWithL, Bool.and_eq_true] at h
      obtain ⟨hh, ht⟩ := h
      simp only [List.cons_append, startsWithL, hh, Bool.true_and]
      exact ih cs ht

/-- `pat` is a prefix of `pat ++ r`. -/
theorem startsWithL_self_append (pat r : List Char) : startsWithL pat (pat ++ r) = true := by
  induction pat with
  | nil => rfl
  | cons p ps ih => simp [startsWithL, ih]

/-- Decompose a prefix match. -/
theorem exists_of_startsWithL (pat s : List Char) (h : startsWithL pat s = true) :
    ∃ r, s = pat ++ r := by
  induction pat generalizing s with
  | nil => exact ⟨s, rfl⟩
  | cons p ps ih =>
    cases s with
    | nil => exact absurd h (by simp [startsWithL])
    | cons c cs =>
      simp only [startsWithL, Bool.and_eq_true] at h
      obtain ⟨hh, ht⟩ := h
      have : p = c := by simpa using hh
      subst this
      obtain ⟨r, rfl⟩ := ih cs ht
      exact ⟨r, rfl⟩

/-- A prefix occurrence is an occurrence. -/
theorem containsL_of_startsWithL (s pat : List Char) (h : startsWithL pat s = true) :
    containsL s pat = true := by
  cases s with
  | nil => simpa [containsL] using h
  | cons c t => simp [containsL, h]

/-- Occurrences survive prepending. -/
theorem containsL_append_right (u v pat : List Char) (h : containsL v pat = true) :
    containsL (u ++ v) pat = true := by
  induction u with
  | nil => simpa using h
  | cons c t ih => simp [containsL, ih]

/-- The empty pattern occurs everywhere. -/
theorem containsL_nilPat (v : List Char) : containsL v [] = true := by
  cases v with
  | nil => rfl
  | cons c t => simp [containsL, startsWithL]

/-- Occurrences survive appending. -/
theorem containsL_append_left (u v pat : List Char) (h : containsL u pat = true) :
    containsL (u ++ v) pat = true := by
  induction u with
  | nil =>
    cases pat with
    | nil => exact containsL_nilPat v
    | cons p ps => simp [containsL, startsWithL] at h
  | cons c t ih =>
    simp only [containsL, Bool.or_eq_true] at h
    rcases h with h1 | h1
    · simp only [List.cons_append, containsL, Bool.or_eq_true]
      exact Or.inl (startsWithL_append pat (c :: t) v h1)
    · simp only [List.cons_append, containsL, Bool.or_eq_true]
      exact Or.inr (ih h1)

/-- An occurrence at a dropped position is an occurrence. -/
theorem containsL_of_drop (s pat : List Char) (i : Nat)
    (h : startsWithL pat (s.drop i) = true) : containsL s pat = true := by
  induction s generalizing i with
  | nil => simpa [containsL] using h
  | cons c t ih =>
    cases i with
    | zero => exact containsL_of_startsWithL _ _ h
    | succ j => simp [containsL, ih j (by simpa using h)]

/-- `dropLitCI` succeeding means the (lower-case) literal prefixes the
lower-cased input. -/
theorem dropLitCI_starts (pat : List Char) (hpat : ∀ c ∈ pat, c.toLower = c) :
    ∀ s : List Char, (dropLitCI pat s).isSome = true → startsWithL pat (lcMap s) = true := by
  induction pat with
  | nil => intro s _; rfl
  | cons p ps ih =>
    intro s h
    cases s with
    | nil => simp [dropLitCI] at h
    | cons c cs =>
      simp only [dropLitCI] at h
      by_cases hc : (p.toLower == c.toLower) = true
      · rw [if_pos hc] at h
        have hp : p.toLower = p := hpat p (List.mem_cons_self _ _)
        rw [hp] at hc
        simp only [lcMap, List.map_cons, startsWithL, hc, Bool.true_and]
        exact ih (fun x hx => hpat x (List.mem_cons_of_mem _ hx)) cs h
      · rw [if_neg hc] at h
        simp at h

/-- A successful `EXTRACT` match starts with `extract` case-insensitively. -/
theorem tryExtractAt_starts (s : List Char) (r : List Char × List Char × List Char)
    (h : tryExtractAt s = some r) : startsWithL "extract".data (lcMap s) = true := by
  apply dropLitCI_starts "extract".data (by decide) s
  cases hd : dropLitCI "extract".data s with
  | none =>
    unfold tryExtractAt at h
    rw [hd] at h
    simp at h
  | some s1 => rfl

/-- A successful cast match contains `::`. -/
theorem tryCastAt_colons (s : List Char) (r : List Char × List Char)
    (h : tryCastAt s = some r) : containsL s "::".data = true := by
  unfold tryCastAt at h
  by_cases hw : (s.takeWhile isWordChar).isEmpty = true
  · rw [if_pos hw] at h; cases h
  · rw [if_neg hw] at h
    split at h
    · rename_i u heq
      exact containsL_of_drop s "::".data (s.takeWhile isWordChar).length
        (by rw [heq]; simp [startsWithL])
    · cases h

/-- With no case-insensitive `extract` anywhere, rewrite rule 1 is the
identity, whatever the fuel. -/
theorem replaceExtractAux_id (n : Nat) (s : List Char)
    (h : containsL (lcMap s) "extract".data = false) : replaceExtractAux n s = s := by
  induction n generalizing s with
  | zero => rfl
  | succ n ih =>
    cases s with
    | nil => rfl
    | cons c t =>
      have h2 := h
      simp only [lcMap, List.map_cons, containsL, Bool.or_eq_false_iff] at h2
      have hnone : tryExtractAt (c :: t) = none := by
        cases he : tryExtractAt (c :: t) with
        | none => rfl
        | some r => exact absurd (tryExtractAt_starts _ r he) (by simp [lcMap, h2.1])
      simp only [replaceExtractAux, hnone]
      rw [ih t h2.2]

/-- With no `::` anywhere, rewrite rule 2 is the identity, whatever the
fuel. -/
theorem replaceCastAux_id (n : Nat) (s : List Char)
    (h : containsL s "::".data = false) : replaceCastAux n s = s := by
  induction n generalizing s with
  | zero => rfl
  | succ n ih =>
    cases s with
    | nil => rfl
    | cons c t =>
      have h2 := h
      simp only [containsL, Bool.or_eq_false_iff] at h2
      have hnone : tryCastAt (c :: t) = none := by
        cases he : tryCastAt (c :: t) with
        | none => rfl
        | some r => exact absurd (tryCastAt_colons _ r he) (by simp [h])
      simp only [replaceCastAux, hnone]
      rw [ih t h2.2]

/-! ## Claim theorems: C2 -/

/-- Claim C2 (corrected): the normalizer is NOT idempotent on all query
strings (see the counterexample); it is the identity — hence idempotent —
on every query containing no case-insensitive `extract` and no `::`, which
covers all queries the rewrite rules do not touch. -/
theorem c2_amended (q : String)
    (h1 : containsL (lcData q) "extract".data = false)
    (h2 : containsL q.data "::".data = false) :
    convertPostgreSQLFunctions q = q ∧
    convertPostgreSQLFunctions (convertPostgreSQLFunctions q) = convertPostgreSQLFunctions q := by
  have hq : convertPostgreSQLFunctions q = q := by
    show String.mk (replaceCast (replaceExtract q.data)) = q
    rw [show replaceExtract q.data = q.data from replaceExtractAux_id _ _ h1,
      show replaceCast q.data = q.data from replaceCastAux_id _ _ h2]
  refine ⟨hq, ?_⟩
  rw [hq]
  exact hq

/-- Claim C2 as stated is false: chained casts break idempotence.
`a::b::c` normalizes to `a::c` (the second `::` was not re-scanned), and a
second pass normalizes that to `a`. -/
theorem c2_counterexample :
    convertPostgreSQLFunctions (convertPostgreSQLFunctions "a::b::c") ≠
      convertPostgreSQLFunctions "a::b::c" := by decide

/-- Witness for `c2_amended` at a concrete cast-free, extract-free query. -/
theorem c2_amended_witness :
    convertPostgreSQLFunctions "select name from users" = "select name from users" ∧
    convertPostgreSQLFunctions (convertPostgreSQLFunctions "select name from users") =
      convertPostgreSQLFunctions "select name from users" :=
  c2_amended "select name from users" (by decide) (by decide)

/-! ## Supporting lemmas: single-occurrence EXTRACT rewriting (claim C8) -/

/-- `lcMap` on a cons. -/
theorem lcMap_cons (c : Char) (t : List Char) :
    lcMap (c :: t) = Char.toLower c :: lcMap t := rfl

/-- `lcMap` distributes over append. -/
theorem lcMap_append (u v : List Char) : lcMap (u ++ v) = lcMap u ++ lcMap v := by
  simp [lcMap]

/-- Lower-casing the literal `EXTRACT(HOUR FROM ts)`. -/
theorem lcMap_P : lcMap "EXTRACT(HOUR FROM ts)".data = "extract(hour from ts)".data := by
  decide

/-- Unfolding `countOcc` on a cons. -/
theorem countOcc_cons (pat : List Char) (c : Char) (t : List Char) :
    countOcc pat (c :: t) =
      countOcc pat t + (if startsWithL pat (c :: t) then 1 else 0) := rfl

/-- `countOcc` is monotone under prepending. -/
theorem countOcc_le_append (pat u w : List Char) :
    countOcc pat w ≤ countOcc pat (u ++ w) := by
  induction u with
  | nil => exact Nat.le_refl _
  | cons c t ih =>
    have hc : (c :: t) ++ w = c :: (t ++ w) := rfl
    rw [hc, countOcc_cons]
    omega

/-- A prefix match makes the count positive. -/
theorem countOcc_pos_of_starts (pat s : List Char) (h : startsWithL pat s = true) :
    1 ≤ countOcc pat s := by
  cases s with
  | nil => simp [countOcc, h]
  | cons c t => simp [countOcc, h]

/-- An occurrence makes the count positive. -/
theorem countOcc_pos_of_contains (s pat : List Char) (h : containsL s pat = true) :
    1 ≤ countOcc pat s := by
  induction s with
  | nil =>
    simp only [containsL] at h
    simp [countOcc, h]
  | cons c t ih =>
    simp only [containsL, Bool.or_eq_true] at h
    simp only [countOcc]
    rcases h with h | h
    · simp [h]
    · have := ih h
      omega

/-- Zero count means no occurrence. -/
theorem not_contains_of_countOcc_zero (s pat : List Char) (h : countOcc pat s = 0) :
    containsL s pat = false := by
  induction s with
  | nil =>
    have hs : startsWithL pat [] = false := by
      by_cases hx : startsWithL pat [] = true
      · simp [countOcc, hx] at h
      · simpa using hx
    simpa [containsL] using hs
  | cons c t ih =>
    simp only [countOcc] at h
    have ht : countOcc pat t = 0 := by omega
    have hs : startsWithL pat (c :: t) = false := by
      by_cases hx : startsWithL pat (c :: t) = true
      · rw [if_pos hx] at h
        omega
      · simpa using hx
    simp [containsL, hs, ih ht]

/-- A case-sensitive `EXTRACT(` prefix is a case-insensitive `extract`
prefix of the lower-cased text. -/
theorem startsWith_EXTRACT_lc (s : List Char)
    (h : startsWithL "EXTRACT(".data s = true) :
    startsWithL "extract".data (s.map Char.toLower) = true := by
  obtain ⟨r, rfl⟩ := exists_of_startsWithL _ _ h
  rw [List.map_append]
  exact startsWithL_append _ _ _ (by decide)

/-- Case-sensitive `EXTRACT(` occurrences are bounded by case-insensitive
`extract` occurrences. -/
theorem countOcc_EXTRACT_le (s : List Char) :
    countOcc "EXTRACT(".data s ≤ countOcc "extract".data (s.map Char.toLower) := by
  induction s with
  | nil => decide
  | cons c t ih =>
    rw [List.map_cons, countOcc_cons, countOcc_cons]
    have hind : (if startsWithL "EXTRACT(".data (c :: t) then 1 else 0)
        ≤ (if startsWithL "extract".data (Char.toLower c :: t.map Char.toLower) then 1
           else 0) := by
      by_cases hs : startsWithL "EXTRACT(".data (c :: t) = true
      · have h2 := startsWith_EXTRACT_lc (c :: t) hs
        rw [List.map_cons] at h2
        rw [if_pos hs, if_pos h2]
      · rw [if_neg hs]
        exact Nat.zero_le _
    omega

/-- A pattern longer than `u` cannot match at `u` when the next character
is not one of its letters. -/
theorem starts_short_append_mid (c : Char) :
    ∀ (pat : List Char), c ∉ pat → ∀ (u v : List Char), u.length < pat.length →
      startsWithL pat (u ++ c :: v) = false := by
  intro pat
  induction pat with
  | nil =>
    intro _ u v hlen
    simp at hlen
  | cons p ps ih =>
    intro hc u v hlen
    cases u with
    | nil =>
      have hpc : (p == c) = false := by
        simp only [beq_eq_false_iff_ne, ne_eq]
        intro he
        exact hc (by rw [← he]; exact List.mem_cons_self _ _)
      simp [startsWithL, hpc]
    | cons a u' =>
      have hlen' : u'.length < ps.length := by
        simp only [List.length_cons] at hlen
        omega
      have htail := ih (fun hm => hc (List.mem_cons_of_mem _ hm)) u' v hlen'
      simp [startsWithL, htail]

/-- A prefix match of `u ++ v` matches `u` itself unless `u` is shorter
than the pattern. -/
theorem starts_append_cases (pat u v : List Char) (h : startsWithL pat (u ++ v) = true) :
    startsWithL pat u = true ∨ u.length < pat.length := by
  induction pat generalizing u with
  | nil => exact Or.inl rfl
  | cons p ps ih =>
    cases u with
    | nil => exact Or.inr (by simp)
    | cons c cs =>
      simp only [List.cons_append, startsWithL, Bool.and_eq_true] at h
      obtain ⟨hh, ht⟩ := h
      rcases ih cs ht with h1 | h1
      · exact Or.inl (by simp [startsWithL, hh, h1])
      · exact Or.inr (by simpa using Nat.succ_lt_succ h1)

/-- Lower-cased `DATE_PART('HOUR', ts)` contributes no case-insensitive
`extract` occurrence position of its own. -/
theorem countOcc_lcM_append (w : List Char) :
    countOcc "extract".data ("date_part('hour', ts)".data ++ w) =
      countOcc "extract".data w := rfl

/-- Lower-cased `EXTRACT(HOUR FROM ts)` contributes exactly one
case-insensitive `extract` occurrence, at its head. -/
theorem countOcc_lcP_append (w : List Char) :
    countOcc "extract".data ("extract(hour from ts)".data ++ w) =
      countOcc "extract".data w + 1 := rfl

/-- `DATE_PART('HOUR', ts)` contributes no `::` occurrence position. -/
theorem containsL_M_colons (w : List Char) :
    containsL ("DATE_PART('HOUR', ts)".data ++ w) "::".data = containsL w "::".data := rfl

/-- Between colon-free pieces, the substituted `DATE_PART('HOUR', ts)`
creates no `::` occurrence. -/
theorem noColons_mid (u w : List Char) (hu : containsL u "::".data = false)
    (hw : containsL w "::".data = false) :
    containsL (u ++ ("DATE_PART('HOUR', ts)".data ++ w)) "::".data = false := by
  induction u with
  | nil =>
    simpa [containsL_M_colons] using hw
  | cons c u' ih =>
    simp only [containsL, Bool.or_eq_false_iff] at hu
    have hstep := ih hu.2
    have hs : startsWithL "::".data
        ((c :: u') ++ ("DATE_PART('HOUR', ts)".data ++ w)) = false := by
      by_cases hx : startsWithL "::".data
          ((c :: u') ++ ("DATE_PART('HOUR', ts)".data ++ w)) = true
      · exfalso
        rcases starts_append_cases _ _ _ hx with h1 | h1
        · rw [hu.1] at h1
          cases h1
        · have hfalse : startsWithL "::".data
              ((c :: u') ++ ("DATE_PART('HOUR', ts)".data ++ w)) = false :=
            starts_short_append_mid 'D' "::".data (by decide) (c :: u')
              ("ATE_PART('HOUR', ts)".data ++ w) (by simpa using h1)
          rw [hfalse] at hx
          cases hx
      · simpa using hx
    simp only [List.cons_append, containsL, Bool.or_eq_false_iff]
    exact ⟨hs, hstep⟩

/-- Between extract-free pieces, the substituted `DATE_PART('HOUR', ts)`
creates no case-insensitive `extract` occurrence. -/
theorem countOcc_mid_zero :
    ∀ (u w : List Char), countOcc "extract".data u = 0 → countOcc "extract".data w = 0 →
      countOcc "extract".data (u ++ ("date_part('hour', ts)".data ++ w)) = 0 := by
  intro u
  induction u with
  | nil =>
    intro w _ hw
    simpa [countOcc_lcM_append] using hw
  | cons c u' ih =>
    intro w hu hw
    rw [countOcc_cons] at hu
    have hu' : countOcc "extract".data u' = 0 := by omega
    have hstart : startsWithL "extract".data (c :: u') = false := by
      by_cases hs : startsWithL "extract".data (c :: u') = true
      · rw [if_pos hs] at hu
        omega
      · simpa using hs
    have hmain : startsWithL "extract".data
        ((c :: u') ++ ("date_part('hour', ts)".data ++ w)) = false := by
      by_cases hs : startsWithL "extract".data
          ((c :: u') ++ ("date_part('hour', ts)".data ++ w)) = true
      · exfalso
        rcases starts_append_cases _ _ _ hs with h1 | h1
        · rw [hstart] at h1
          cases h1
        · have hfalse : startsWithL "extract".data
              ((c :: u') ++ ("date_part('hour', ts)".data ++ w)) = false :=
            starts_short_append_mid 'd' "extract".data (by decide) (c :: u')
              ("ate_part('hour', ts)".data ++ w) (by simpa using h1)
          rw [hfalse] at hs
          cases hs
      · simpa using hs
    have hexp : (c :: u') ++ ("date_part('hour', ts)".data ++ w) =
        c :: (u' ++ ("date_part('hour', ts)".data ++ w)) := rfl
    rw [hexp, countOcc_cons, ih w hu' hw]
    rw [hexp] at hmain
    rw [hmain]
    simp

/-- When a row set contains `EXTRACT(HOUR FROM ts)`, the head step of the
scanner consumes exactly that call and substitutes `DATE_PART('HOUR', ts)`. -/
theorem replaceExtractAux_P (k : Nat) (B : List Char) :
    replaceExtractAux (k + 21) ("EXTRACT(HOUR FROM ts)".data ++ B) =
      "DATE_PART('HOUR', ts)".data ++ replaceExtractAux (k + 20) B := rfl

/-- A query containing `EXTRACT(HOUR FROM ts)` whose only case-insensitive
`extract` occurrence is that call rewrites to the same text with the call
replaced by `DATE_PART('HOUR', ts)`; the surrounding pieces are
extract-free. -/
theorem replaceExtract_single :
    ∀ (n : Nat) (s : List Char), s.length ≤ n →
      countOcc "extract".data (lcMap s) = 1 →
      containsL s "EXTRACT(HOUR FROM ts)".data = true →
      ∃ A B, s = A ++ ("EXTRACT(HOUR FROM ts)".data ++ B) ∧
        replaceExtractAux s.length s = A ++ ("DATE_PART('HOUR', ts)".data ++ B) ∧
        countOcc "extract".data (lcMap A) = 0 ∧
        countOcc "extract".data (lcMap B) = 0 := by
  intro n
  induction n with
  | zero =>
    intro s hlen h1 h2
    obtain rfl : s = [] := List.length_eq_zero.mp (Nat.le_zero.mp hlen)
    exact absurd h2 (by decide)
  | succ n ih =>
    intro s hlen h1 h2
    cases s with
    | nil => exact absurd h2 (by decide)
    | cons c t =>
      by_cases hsw : startsWithL "EXTRACT(HOUR FROM ts)".data (c :: t) = true
      · obtain ⟨B, hPB⟩ := exists_of_startsWithL _ _ hsw
        have hBocc : countOcc "extract".data (lcMap B) = 0 := by
          have h1' := h1
          rw [hPB, lcMap_append, lcMap_P, countOcc_lcP_append] at h1'
          omega
        have hBfree : containsL (lcMap B) "extract".data = false :=
          not_contains_of_countOcc_zero _ _ hBocc
        refine ⟨[], B, by simpa using hPB, ?_, by decide, hBocc⟩
        rw [hPB]
        have hlP : ("EXTRACT(HOUR FROM ts)".data ++ B).length = B.length + 21 := by
          rw [List.length_append, show ("EXTRACT(HOUR FROM ts)".data).length = 21 from rfl]
          omega
        rw [hlP, replaceExtractAux_P, replaceExtractAux_id _ _ hBfree]
        rfl
      · have hct : containsL t "EXTRACT(HOUR FROM ts)".data = true := by
          simp only [containsL, Bool.or_eq_true] at h2
          rcases h2 with h2 | h2
          · exact absurd h2 hsw
          · exact h2
        have hOcc_t_pos : 1 ≤ countOcc "extract".data (lcMap t) := by
          clear hsw h1 hlen ih h2
          induction t with
          | nil => exact absurd hct (by decide)
          | cons a t' ih' =>
            have hct' : startsWithL "EXTRACT(HOUR FROM ts)".data (a :: t') = true ∨
                containsL t' "EXTRACT(HOUR FROM ts)".data = true := by
              have hh := hct
              simp only [containsL, Bool.or_eq_true] at hh
              exact hh
            rcases hct' with hx | hx
            · obtain ⟨r, hr⟩ := exists_of_startsWithL _ _ hx
              refine countOcc_pos_of_starts _ _ ?_
              rw [hr, lcMap_append, lcMap_P]
              exact startsWithL_append _ _ _ (by decide)
            · have hpos := ih' hx
              rw [lcMap_cons, countOcc_cons]
              omega
        have hs0 : startsWithL "extract".data (lcMap (c :: t)) = false := by
          by_cases hx : startsWithL "extract".data (lcMap (c :: t)) = true
          · exfalso
            have hcount : countOcc "extract".data (lcMap (c :: t)) =
                countOcc "extract".data (lcMap t) + 1 := by
              rw [lcMap_cons]
              rw [lcMap_cons] at hx
              simp only [countOcc, hx, if_pos]
            omega
          · simpa using hx
        have hnone : tryExtractAt (c :: t) = none := by
          cases he : tryExtractAt (c :: t) with
          | none => rfl
          | some r => exact absurd (tryExtractAt_starts _ r he) (by simp [hs0])
        have hOcc_t : countOcc "extract".data (lcMap t) = 1 := by
          have heq : countOcc "extract".data (lcMap (c :: t)) =
              countOcc "extract".data (lcMap t) := by
            rw [lcMap_cons]
            rw [lcMap_cons] at hs0
            simp [countOcc, hs0]
          omega
        obtain ⟨A₁, B, htd, hrwt, hA₁, hB⟩ :=
          ih t (by simp only [List.length_cons] at hlen; omega) hOcc_t hct
        refine ⟨c :: A₁, B, ?_, ?_, ?_, hB⟩
        · rw [List.cons_append, htd]
        · have hstep : replaceExtractAux ((c :: t).length) (c :: t) =
              c :: replaceExtractAux t.length t := by
            simp only [List.length_cons, replaceExtractAux, hnone]
          rw [hstep, hrwt, List.cons_append]
          rfl
        · rw [lcMap_cons]
          have hsA : startsWithL "extract".data (Char.toLower c :: lcMap A₁) = false := by
            by_cases hx : startsWithL "extract".data (Char.toLower c :: lcMap A₁) = true
            · exfalso
              have hext : startsWithL "extract".data (lcMap (c :: t)) = true := by
                have hdec : lcMap (c :: t) = (Char.toLower c :: lcMap A₁) ++
                    lcMap ("EXTRACT(HOUR FROM ts)".data ++ B) := by
                  rw [lcMap_cons, htd, lcMap_append]
                  rfl
                rw [hdec]
                exact startsWithL_append _ _ _ hx
              rw [hext] at hs0
              cases hs0
            · simpa using hx
          simp [countOcc, hsA, hA₁]

/-! ## Claim theorems: C8 -/

/-- Claim C8 (corrected): when `EXTRACT(HOUR FROM ts)` is the only
case-insensitive `extract` occurrence of the query and no `::` occurs, the
normalizer's output contains `DATE_PART('HOUR', ts)` and no `EXTRACT(`
remains; without that restriction the claim fails (see the
counterexample). -/
theorem c8_amended (q : String)
    (h1 : containsL q.data "EXTRACT(HOUR FROM ts)".data = true)
    (h2 : countOcc "extract".data (lcData q) = 1)
    (h3 : containsL q.data "::".data = false) :
    containsL (convertPostgreSQLFunctions q).data "DATE_PART('HOUR', ts)".data = true ∧
    containsL (convertPostgreSQLFunctions q).data "EXTRACT(".data = false := by
  obtain ⟨A, B, hs, hrw, hA, hB⟩ :=
    replaceExtract_single q.data.length q.data le_rfl h2 h1
  have hAc : containsL A "::".data = false := by
    by_cases hx : containsL A "::".data = true
    · have hq : containsL q.data "::".data = true := by
        rw [hs]
        exact containsL_append_left _ _ _ hx
      rw [hq] at h3
      cases h3
    · simpa using hx
  have hBc : containsL B "::".data = false := by
    by_cases hx : containsL B "::".data = true
    · have hq : containsL q.data "::".data = true := by
        rw [hs]
        exact containsL_append_right _ _ _ (containsL_append_right _ _ _ hx)
      rw [hq] at h3
      cases h3
    · simpa using hx
  have hnc : containsL (A ++ ("DATE_PART('HOUR', ts)".data ++ B)) "::".data = false :=
    noColons_mid A B hAc hBc
  have hout : (convertPostgreSQLFunctions q).data =
      A ++ ("DATE_PART('HOUR', ts)".data ++ B) := by
    show replaceCast (replaceExtract q.data) = _
    rw [show replaceExtract q.data = A ++ ("DATE_PART('HOUR', ts)".data ++ B) from hrw]
    exact replaceCastAux_id _ _ hnc
  constructor
  · rw [hout]
    exact containsL_append_right _ _ _
      (containsL_of_startsWithL _ _ (startsWithL_self_append _ _))
  · rw [hout]
    by_cases hx : containsL (A ++ ("DATE_PART('HOUR', ts)".data ++ B))
        "EXTRACT(".data = true
    · exfalso
      have hpos := countOcc_pos_of_contains _ _ hx
      have hle := countOcc_EXTRACT_le (A ++ ("DATE_PART('HOUR', ts)".data ++ B))
      have hmapped : (A ++ ("DATE_PART('HOUR', ts)".data ++ B)).map Char.toLower =
          lcMap A ++ ("date_part('hour', ts)".data ++ lcMap B) := by
        simp only [List.map_append]
        rfl
      rw [hmapped] at hle
      have hzero := countOcc_mid_zero (lcMap A) (lcMap B) hA hB
      omega
    · simpa using hx

/-- Claim C8 as stated is false: a second `EXTRACT(` before the call
survives the rewrite, so the output still contains `EXTRACT(`. -/
theorem c8_counterexample :
    containsL "EXTRACT(EXTRACT(HOUR FROM ts)".data "EXTRACT(HOUR FROM ts)".data = true ∧
    containsL (convertPostgreSQLFunctions "EXTRACT(EXTRACT(HOUR FROM ts)").data
      "EXTRACT(".data = true := by decide

/-- Witness for `c8_amended` at a concrete single-EXTRACT query. -/
theorem c8_amended_witness :
    containsL (convertPostgreSQLFunctions "SELECT EXTRACT(HOUR FROM ts) FROM logs").data
      "DATE_PART('HOUR', ts)".data = true ∧
    containsL (convertPostgreSQLFunctions "SELECT EXTRACT(HOUR FROM ts) FROM logs").data
      "EXTRACT(".data = false :=
  c8_amended "SELECT EXTRACT(HOUR FROM ts) FROM logs" (by decide) (by decide) (by decide)

end Jumper
